import Mathlib

set_option maxHeartbeats 1000000

/-!
Shallow embedding of the draw.io sequence-diagram → Event-B converter
(src/t1.py, src/index.py, src/test.py) and proofs about it.

Conventions used throughout:
* XML attribute values that the Python code feeds to `float()` are
  modelled as optional rationals; `float(g.get('x', 0))` becomes
  `(g.x).getD 0`.  The code only adds, halves, compares and takes
  absolute values of these numbers, so rational arithmetic is exact.
* Python string truthiness: `None` and `""` are falsy (`optFalsy`).
* The unbounded `while` loop of the parent-chain walk is modelled with an
  explicit step budget (`abs_walk`); a result of `none` for every budget
  expresses that the loop never exits.
* Regular expressions of the source are implemented as explicit
  character-list scanners, including the backtracking on the greedy
  identifier group that `re` performs.
-/

/-- Python truthiness of an optional string: `None` and the empty string are falsy. -/
def optFalsy : Option String → Bool
  | none => true
  | some s => s == ""

/-- ASCII whitespace as matched by Python's `\s` / `str.strip()`. -/
def pyIsSpace (c : Char) : Bool :=
  c == ' ' || c == '\t' || c == '\n' || c == '\r' || c == '\x0b' || c == '\x0c'

/-- Characters matched by `[a-zA-Z0-9_]` (Python `\w`, ASCII). -/
def isWordCh (c : Char) : Bool := c.isAlphanum || c == '_'

/-- Characters allowed to start an identifier: `[a-zA-Z_]`. -/
def isIdentStart (c : Char) : Bool := c.isAlpha || c == '_'

/-- `startsWithCh pat l` holds when `l` starts with `pat`. -/
def startsWithCh : List Char → List Char → Bool
  | [], _ => true
  | _ :: _, [] => false
  | p :: ps, c :: cs => p == c && startsWithCh ps cs

/-- Substring containment on character lists. -/
def containsSeq (pat : List Char) : List Char → Bool
  | [] => pat.isEmpty
  | c :: rest => startsWithCh pat (c :: rest) || containsSeq pat rest

/-- Python `pat in s` (substring containment). -/
def hasSub (s pat : String) : Bool := containsSeq pat.toList s.toList

/-- Python `c in s` for a single character. -/
def hasChar (s : String) (c : Char) : Bool := containsSeq [c] s.toList

/-- Python `str.strip()`. -/
def stripChars (l : List Char) : List Char :=
  ((l.dropWhile pyIsSpace).reverse.dropWhile pyIsSpace).reverse

/-- Python `str.strip()` on strings. -/
def pyStrip (s : String) : String := String.mk (stripChars s.toList)

/-- Python `str.lower()` (ASCII). -/
def lowerStr (s : String) : String := String.mk (s.toList.map Char.toLower)

/-- Python `s.startswith(p)`. -/
def startsWithStr (s p : String) : Bool := startsWithCh p.toList s.toList

/-- Python `s.startswith((p1, p2, ...))`. -/
def startsAny (s : String) (ps : List String) : Bool := ps.any (fun p => startsWithStr s p)

/-- Given the characters after a `<`, drop through the first `>`
(the tail of a `<[^>]*>` match); `none` when the tag is never closed. -/
def dropTag : List Char → Option (List Char)
  | [] => none
  | '>' :: rest => some rest
  | _ :: rest => dropTag rest

/-- Engine for `re.sub(r'<[^>]*>', '', s)`.  The numeric argument is only
a structural-recursion budget and every call site passes the length of the
character list, which bounds the number of steps actually taken. -/
def cleanHtmlAux : Nat → List Char → List Char
  | 0, l => l
  | _ + 1, [] => []
  | fuel + 1, '<' :: rest =>
    (match dropTag rest with
     | some rest2 => cleanHtmlAux fuel rest2
     | none => '<' :: cleanHtmlAux fuel rest)
  | fuel + 1, c :: rest => c :: cleanHtmlAux fuel rest

/-- `clean_html` of src/index.py, also the inline `re.sub(r'<[^>]*>', '', v)`
used throughout src/t1.py. -/
def clean_html (s : String) : String := String.mk (cleanHtmlAux s.toList.length s.toList)

/-- Python `value.split(':')[-1]`: everything after the last colon. -/
def lastSplitColon (s : String) : String :=
  String.mk ((s.toList.reverse.takeWhile (fun c => !(c == ':'))).reverse)

/-- Helper for `splitCommas`. -/
def splitCommasAux : List Char → List Char → List String
  | [], cur => [String.mk cur.reverse]
  | ',' :: rest, cur => String.mk cur.reverse :: splitCommasAux rest []
  | c :: rest, cur => splitCommasAux rest (c :: cur)

/-- Python `s.split(',')`. -/
def splitCommas (s : String) : List String := splitCommasAux s.toList []

/-- Python `s.split(',')[0]`. -/
def firstCommaPart (s : String) : String :=
  String.mk (s.toList.takeWhile (fun c => !(c == ',')))

/-- Engine for Python `str.replace` (all non-overlapping occurrences, left
to right).  Only called with non-empty patterns; the numeric argument is a
structural-recursion budget always instantiated with the string length. -/
def replaceAllAux (pat rep : List Char) : Nat → List Char → List Char
  | _, [] => []
  | 0, l => l
  | fuel + 1, c :: rest =>
    if startsWithCh pat (c :: rest) then
      rep ++ replaceAllAux pat rep fuel (List.drop (pat.length - 1) rest)
    else c :: replaceAllAux pat rep fuel rest

/-- Python `s.replace(pat, rep)`. -/
def replaceAllStr (s pat rep : String) : String :=
  String.mk (replaceAllAux pat.toList rep.toList s.toList.length s.toList)

/-- The condition normalisation `.replace('==', '=').replace(':=', '=')`
applied by src/t1.py to every bracketed guard text. -/
def normCond (s : String) : String := replaceAllStr (replaceAllStr s "==" "=") ":=" "="

/-- Characters up to (excluding) the first `]`; `none` when there is none.
This is the lazy group of `re.search(r'\[(.*?)\]', s)`. -/
def takeUntilClose : List Char → Option (List Char)
  | [] => none
  | ']' :: _ => some []
  | c :: rest => (takeUntilClose rest).map (fun l => c :: l)

/-- `re.search(r'\[(.*?)\]', s)`: the text between the first `[` and the
first `]` that follows it (if the first `[` has no closing `]`, no later
`[` can have one either, so the whole search fails). -/
def bracketGroup : List Char → Option (List Char)
  | [] => none
  | '[' :: rest => takeUntilClose rest
  | _ :: rest => bracketGroup rest

/-- String version of `bracketGroup`. -/
def bracketGroupStr (s : String) : Option String := (bracketGroup s.toList).map String.mk

/-- Characters up to (excluding) the first `)`; the lazy group of `(.*?)\)`. -/
def takeUntilRParen : List Char → Option (List Char)
  | [] => none
  | ')' :: _ => some []
  | c :: rest => (takeUntilRParen rest).map (fun l => c :: l)

/-- Non-empty all-digit string (`\d+` capture shape). -/
def isDigitsStr (s : String) : Bool := !(s.toList.isEmpty) && s.toList.all Char.isDigit

-- ===================== exact coordinate arithmetic =====================

/-- Addition on ℚ written through `mkRat` so that concrete runs of the
embedded code reduce inside the kernel (`Rat.add` itself is sealed);
`qadd_eq` identifies it with `+`. -/
def qadd (a b : ℚ) : ℚ := mkRat (a.num * b.den + b.num * a.den) (a.den * b.den)

/-- Subtraction on ℚ through `mkRat`; `qsub_eq` identifies it with `-`. -/
def qsub (a b : ℚ) : ℚ := mkRat (a.num * b.den - b.num * a.den) (a.den * b.den)

/-- Halving on ℚ through `mkRat` (the `w / 2` of the lifeline centre);
`qhalf_eq` identifies it with `· / 2`. -/
def qhalf (a : ℚ) : ℚ := mkRat a.num (a.den * 2)

/-- Absolute value on ℚ by case split; `qabs_eq` identifies it with `|·|`. -/
def qabs (a : ℚ) : ℚ := if decide (a < 0) then -a else a

theorem qadd_eq (a b : ℚ) : qadd a b = a + b := by
  have ha : (a.den : ℚ) ≠ 0 := Nat.cast_ne_zero.mpr (Rat.den_ne_zero a)
  have hb : (b.den : ℚ) ≠ 0 := Nat.cast_ne_zero.mpr (Rat.den_ne_zero b)
  have hA : (a.num : ℚ) = a * a.den := (div_eq_iff ha).mp (Rat.num_div_den a)
  have hB : (b.num : ℚ) = b * b.den := (div_eq_iff hb).mp (Rat.num_div_den b)
  rw [qadd, Rat.mkRat_eq_div]
  push_cast
  rw [hA, hB, div_eq_iff (mul_ne_zero ha hb)]
  ring

theorem qsub_eq (a b : ℚ) : qsub a b = a - b := by
  have ha : (a.den : ℚ) ≠ 0 := Nat.cast_ne_zero.mpr (Rat.den_ne_zero a)
  have hb : (b.den : ℚ) ≠ 0 := Nat.cast_ne_zero.mpr (Rat.den_ne_zero b)
  have hA : (a.num : ℚ) = a * a.den := (div_eq_iff ha).mp (Rat.num_div_den a)
  have hB : (b.num : ℚ) = b * b.den := (div_eq_iff hb).mp (Rat.num_div_den b)
  rw [qsub, Rat.mkRat_eq_div]
  push_cast
  rw [hA, hB, div_eq_iff (mul_ne_zero ha hb)]
  ring

theorem qhalf_eq (a : ℚ) : qhalf a = a / 2 := by
  have ha : (a.den : ℚ) ≠ 0 := Nat.cast_ne_zero.mpr (Rat.den_ne_zero a)
  have hA : (a.num : ℚ) = a * a.den := (div_eq_iff ha).mp (Rat.num_div_den a)
  rw [qhalf, Rat.mkRat_eq_div]
  push_cast
  rw [div_eq_div_iff (by positivity) (by norm_num), hA]
  ring

theorem qabs_eq (a : ℚ) : qabs a = |a| := by
  rw [qabs]
  by_cases h : a < 0
  · simp [h, abs_of_neg h]
  · simp [h, abs_of_nonneg (le_of_not_lt h)]

-- ===================== document model =====================

/-- An `mxPoint` child of an edge geometry. -/
structure MxPoint where
  x : Option ℚ
  y : Option ℚ
deriving DecidableEq, Repr

/-- An `mxGeometry` child: the relative box plus the optional
`sourcePoint`/`targetPoint` children found on edges. -/
structure MxGeom where
  x : Option ℚ
  y : Option ℚ
  w : Option ℚ
  h : Option ℚ
  srcPoint : Option MxPoint
  trgPoint : Option MxPoint
deriving DecidableEq, Repr

/-- One element of the document as seen through `elem.get(...)`:
`vertex`/`edge` record whether the attribute equals `'1'`, absent string
attributes are `none` (or `""` where the code always defaults them). -/
structure MxCell where
  id : Option String
  tag : String
  value : String
  style : String
  vertex : Bool
  edge : Bool
  parent : Option String
  source : Option String
  target : Option String
  geom : Option MxGeom
deriving DecidableEq, Repr

/-- An absolute bounding box as computed by the geometry resolver. -/
structure AbsGeom where
  x : ℚ
  y : ℚ
  w : ℚ
  h : ℚ
deriving DecidableEq, Repr

/-- `id_to_elem = {e.get('id'): e for e in root.iter()}` looked up at a
string key: the last element carrying that id wins, as in a Python dict
comprehension. -/
def id_to_elem (doc : List MxCell) (i : String) : Option MxCell :=
  (doc.filter (fun e => e.id == some i)).getLast?

/-- The guard of the parent-chain `while` loop:
`curr_parent_id and curr_parent_id != '1' and curr_parent_id != '0'`. -/
def parent_guard : Option String → Bool
  | none => false
  | some s => !(s == "") && !(s == "1") && !(s == "0")

/-- The parent-chain accumulation loop of `get_abs_geom` (src/t1.py,
lines 386-397).  The Python loop is unbounded; the `Nat` argument is a
step budget, and `none` means the budget was exhausted with the loop
guard still true (i.e. the Python loop is still running). -/
def abs_walk (doc : List MxCell) : Nat → Option String → ℚ → ℚ → Option (ℚ × ℚ)
  | 0, pid, x, y => if parent_guard pid then none else some (x, y)
  | fuel + 1, pid, x, y =>
    if parent_guard pid then
      match pid with
      | some p =>
        (match id_to_elem doc p with
         | some pe =>
           (match pe.geom with
            | some g => abs_walk doc fuel pe.parent (qadd x (g.x.getD 0)) (qadd y (g.y.getD 0))
            | none => abs_walk doc fuel pe.parent x y)
         | none => some (x, y))
      | none => some (x, y)
    else some (x, y)

/-- `get_abs_geom` of `extract_sequence_from_xml` (src/t1.py, lines
376-400): `none` when the element has no geometry, otherwise the walked
absolute box — or `none` when the walk budget runs out, which for every
budget means the Python loop never terminates. -/
def get_abs_geom (doc : List MxCell) (fuel : Nat) (e : MxCell) : Option AbsGeom :=
  match e.geom with
  | none => none
  | some g =>
    match abs_walk doc fuel e.parent (g.x.getD 0) (g.y.getD 0) with
    | none => none
    | some xy => some ⟨xy.1, xy.2, g.w.getD 0, g.h.getD 0⟩

-- ===================== scope extraction (t1.py PHASE 1) =====================

/-- A fragment scope record as built by PHASE 1 of
`extract_sequence_from_xml` (src/t1.py, lines 444-453). -/
structure Scope where
  id : Option String
  type : String
  y_start : ℚ
  y_end : ℚ
  x_start : ℚ
  x_end : ℚ
  height : ℚ
  condition : Option String
deriving DecidableEq, Repr

/-- Suffix selection for a frame (src/t1.py, lines 425-434): keyword of
the lowered label first, default `_opt` for style-marked frames. -/
def frame_suffix (clean_low : String) (cnt : Nat) (is_fstyle : Bool) : String :=
  if startsWithStr clean_low "opt" then "_opt" ++ toString cnt
  else if startsWithStr clean_low "alt" then "_alt" ++ toString cnt
  else if startsWithStr clean_low "loop" then "_loop" ++ toString cnt
  else if startsWithStr clean_low "par" then "_par" ++ toString cnt
  else if startsWithStr clean_low "break" then "_break" ++ toString cnt
  else if is_fstyle then "_opt" ++ toString cnt
  else ""

/-- One iteration of the PHASE-1 frame scan (src/t1.py, lines 409-454);
the accumulator carries the scope list and `frag_counter`. -/
def phase1Step (doc : List MxCell) (fuel : Nat) (acc : List Scope × Nat) (e : MxCell) :
    List Scope × Nat :=
  if !e.vertex then acc else
  let clean_low := lowerStr (pyStrip (clean_html e.value))
  let is_fstyle := hasSub e.style "umlFrame" || hasSub e.style "sysml.package"
  let is_flabel := startsAny clean_low ["opt", "alt", "loop", "par", "break"]
  if is_fstyle || is_flabel then
    let suffix := frame_suffix clean_low acc.2 is_fstyle
    if suffix == "" then acc
    else
      match get_abs_geom doc fuel e with
      | none => acc
      | some g =>
        let emb := (bracketGroupStr e.value).map (fun c => normCond (pyStrip c))
        (acc.1 ++ [{ id := e.id, type := suffix,
                     y_start := g.y, y_end := qadd g.y g.h,
                     x_start := g.x, x_end := qadd g.x g.w,
                     height := g.h, condition := emb }], acc.2 + 1)
  else acc

/-- PHASE 1 of `extract_sequence_from_xml`: collect all fragment scopes. -/
def phase1 (doc : List MxCell) (fuel : Nat) : List Scope :=
  (doc.foldl (phase1Step doc fuel) ([], 1)).1

/-- The parent check of PHASE 1.2 (src/t1.py, lines 475-483): find the
scope whose id equals the label's parent; assign the condition only when
the stored one is falsy; report whether a parent scope was found at all. -/
def parentAssign (cond : String) (pid : Option String) : List Scope → List Scope × Bool
  | [] => ([], false)
  | s :: rest =>
    if s.id == pid then
      ((if optFalsy s.condition then { s with condition := some cond } else s) :: rest, true)
    else
      let r := parentAssign cond pid rest
      (s :: r.1, r.2)

/-- The spatial check of PHASE 1.2 (src/t1.py, lines 486-494): the first
scope that spatially contains the label *and* lacks a condition receives
it; scopes that contain it but already have a condition are passed over. -/
def spatialAssign (cond : String) (tx ty : ℚ) : List Scope → List Scope
  | [] => []
  | s :: rest =>
    if decide (s.x_start ≤ tx) && decide (tx ≤ s.x_end) &&
       decide (qsub s.y_start 40 ≤ ty) && decide (ty ≤ s.y_end) then
      if optFalsy s.condition then { s with condition := some cond } :: rest
      else s :: spatialAssign cond tx ty rest
    else s :: spatialAssign cond tx ty rest

/-- One iteration of the PHASE-1.2 text-condition scan
(src/t1.py, lines 457-494). -/
def phase12Step (doc : List MxCell) (fuel : Nat) (scopes : List Scope) (e : MxCell) :
    List Scope :=
  if !e.vertex then scopes else
  let clean := pyStrip (clean_html e.value)
  if startsAny (lowerStr clean) ["opt", "alt", "loop", "par"] then scopes else
  match bracketGroupStr clean with
  | none => scopes
  | some g =>
    let raw_cond := normCond (pyStrip g)
    match get_abs_geom doc fuel e with
    | none => scopes
    | some ag =>
      let r := parentAssign raw_cond e.parent scopes
      if r.2 then r.1 else spatialAssign raw_cond ag.x ag.y r.1

/-- PHASE 1.2: map floating/child `[...]` texts onto the scopes. -/
def phase12 (doc : List MxCell) (fuel : Nat) (scopes : List Scope) : List Scope :=
  doc.foldl (phase12Step doc fuel) scopes

-- ===================== lifelines (t1.py PHASE 2) =====================

/-- A registered lifeline: display name and absolute horizontal centre. -/
structure Lifeline where
  name : String
  center_x : ℚ
deriving DecidableEq, Repr

/-- One iteration of the PHASE-2 lifeline scan (src/t1.py, lines 499-511). -/
def phase2Step (doc : List MxCell) (fuel : Nat) (acc : List Lifeline) (e : MxCell) :
    List Lifeline :=
  if (hasSub e.style "umlLifeline" || hasSub e.style "participant" ||
      hasSub e.style "shape=umlActor") && !(e.value == "") then
    let name := pyStrip (clean_html (lastSplitColon e.value))
    match get_abs_geom doc fuel e with
    | none => acc
    | some g => acc ++ [{ name := name, center_x := qadd g.x (qhalf g.w) }]
  else acc

/-- PHASE 2 of `extract_sequence_from_xml`: collect the lifelines. -/
def phase2 (doc : List MxCell) (fuel : Nat) : List Lifeline :=
  doc.foldl (phase2Step doc fuel) []

/-- The scanning loop of `find_closest_lifeline` (src/t1.py, lines
516-519): the accumulator holds `(closest, min_dist)` with `none`
standing for `float('inf')`. -/
def closestRun (x : ℚ) : List Lifeline → String × Option ℚ → String × Option ℚ
  | [], acc => acc
  | lf :: rest, acc =>
    let dist := qabs (qsub lf.center_x x)
    match acc.2 with
    | none => closestRun x rest (lf.name, some dist)
    | some m =>
      if decide (dist < m) then closestRun x rest (lf.name, some dist)
      else closestRun x rest acc

/-- `find_closest_lifeline` (src/t1.py, lines 513-521): nearest lifeline
by x, `"Unknown"` when there are no lifelines or the minimum distance
exceeds 150. -/
def find_closest_lifeline (lifelines : List Lifeline) (target_x : ℚ) : String :=
  match lifelines with
  | [] => "Unknown"
  | _ :: _ =>
    let r := closestRun target_x lifelines ("Unknown", none)
    match r.2 with
    | none => "Unknown"
    | some m => if decide (150 < m) then "Unknown" else r.1

-- ===================== message flows (t1.py PHASE 3) =====================

/-- One extracted message flow (the dict appended at src/t1.py, lines
572-577); `fromName`/`toName` are the Python keys `from`/`to`. -/
structure MessageFlow where
  msg : String
  fromName : String
  toName : String
  data : Option String
  y : ℚ
  opt_suffix : String
  guard_cond : Option String
deriving DecidableEq, Repr

/-- `re.match(r'([a-zA-Z0-9_]+)\((.*?)\)', s)` used for parameter
extraction in PHASE 3 (src/t1.py, line 556). -/
def matchCallT1 (s : String) : Option (String × String) :=
  let cs := s.toList
  let run := cs.takeWhile isWordCh
  let rest := cs.dropWhile isWordCh
  if run.isEmpty then none
  else
    match rest with
    | '(' :: rest2 => (takeUntilRParen rest2).map (fun a => (String.mk run, String.mk a))
    | _ => none

/-- The `if '(' in msg_name` parameter split of PHASE 3 (src/t1.py,
lines 554-557): returns the call name and the optional data parameter. -/
def parseCallParam (msg : String) : String × Option String :=
  if hasChar msg '(' then
    match matchCallT1 msg with
    | some na => (na.1, some (pyStrip (firstCommaPart na.2)))
    | none => (msg, none)
  else (msg, none)

/-- Endpoint resolution of PHASE 3 (src/t1.py, lines 533-548): the
source/target names come from the nearest lifeline to the edge's
`sourcePoint`/`targetPoint` x; `y_coord` is the sourcePoint y (0 when
absent). -/
def resolveFromPoints (lifelines : List Lifeline) (e : MxCell) :
    Option String × Option String × ℚ :=
  match e.geom with
  | none => (none, none, 0)
  | some g =>
    let src := match g.srcPoint with
      | some p => (some (find_closest_lifeline lifelines (p.x.getD 0)), p.y.getD 0)
      | none => (none, (0 : ℚ))
    let trg := match g.trgPoint with
      | some p => some (find_closest_lifeline lifelines (p.x.getD 0))
      | none => none
    (src.1, trg, src.2)

/-- The vertical-containment test `scope['y_start'] <= y_coord <= scope['y_end']`
of src/t1.py, line 566. -/
def scContains (s : Scope) (y : ℚ) : Bool :=
  decide (s.y_start ≤ y) && decide (y ≤ s.y_end)

/-- The scope-matching loop of PHASE 3 (src/t1.py, lines 560-570): the
accumulator is `(matched_suffix, matched_condition, min_scope_height)`
with `none` for `float('inf')`. -/
def matchScopeRun (y : ℚ) : List Scope → String × Option String × Option ℚ →
    String × Option String × Option ℚ
  | [], acc => acc
  | s :: rest, acc =>
    if scContains s y then
      match acc.2.2 with
      | none => matchScopeRun y rest (s.type, s.condition, some s.height)
      | some m =>
        if decide (s.height < m) then matchScopeRun y rest (s.type, s.condition, some s.height)
        else matchScopeRun y rest acc
    else matchScopeRun y rest acc

/-- Scope attribution for one flow: suffix and condition of the
containing scope of minimal height (`""`/`none` when no scope contains
the flow's y). -/
def matchScope (scopes : List Scope) (y : ℚ) : String × Option String :=
  let r := matchScopeRun y scopes ("", none, none)
  (r.1, r.2.1)

/-- The body of the PHASE-3 edge loop (src/t1.py, lines 527-577) for a
single element: `none` when the element is skipped (`continue`). -/
def phase3Edge (lifelines : List Lifeline) (scopes : List Scope) (e : MxCell) :
    Option MessageFlow :=
  if !e.edge then none else
  let msg0 := pyStrip (clean_html e.value)
  if msg0 == "" then none else
  let r := resolveFromPoints lifelines e
  if optFalsy r.1 || r.1 == some "Unknown" then none else
  let toName := if optFalsy r.2.1 then "Unknown" else (r.2.1).getD "Unknown"
  let md := parseCallParam msg0
  let sc := matchScope scopes r.2.2
  some { msg := md.1, fromName := (r.1).getD "", toName := toName,
         data := md.2, y := r.2.2, opt_suffix := sc.1, guard_cond := sc.2 }

/-- Stable insertion of `a` after every element with key `≤ key a`
(`insertByKey` + `sortByKey` model Python's stable `sorted(..., key=...)`). -/
def insertByKey {α : Type} (key : α → ℚ) (a : α) : List α → List α
  | [] => [a]
  | b :: rest =>
    if decide (key b ≤ key a) then b :: insertByKey key a rest
    else a :: b :: rest

/-- Stable sort by a rational key (processes left to right, so equal keys
keep their encounter order exactly like Python's `sorted`). -/
def sortByKey {α : Type} (key : α → ℚ) (l : List α) : List α :=
  l.foldl (fun acc a => insertByKey key a acc) []

/-- `extract_sequence_from_xml` (src/t1.py, lines 361-585), post-parse:
scopes, lifelines, flows, then the global sort by vertical position. -/
def extract_sequence_from_xml (doc : List MxCell) (fuel : Nat) : List MessageFlow :=
  let scopes := phase12 doc fuel (phase1 doc fuel)
  let lifelines := phase2 doc fuel
  sortByKey (fun f => f.y) (doc.filterMap (phase3Edge lifelines scopes))

-- ===================== guard variables (t1.py extract_variables_from_fragments) =====================

/-- Tail matcher for `\s*(\d+)\s*\]`: digits (captured), optional spaces,
then the closing bracket. -/
def digitsCloseTail (l : List Char) : Option String :=
  let l1 := l.dropWhile pyIsSpace
  let ds := l1.takeWhile Char.isDigit
  let rest := l1.dropWhile Char.isDigit
  if ds.isEmpty then none
  else
    match rest.dropWhile pyIsSpace with
    | ']' :: _ => some (String.mk ds)
    | _ => none

/-- Tail matcher for `\s*(\d+\.\.\d+)\s*\]`: a numeric range literal then
the closing bracket; returns the two digit groups. -/
def rangeCloseTail (l : List Char) : Option (String × String) :=
  let l1 := l.dropWhile pyIsSpace
  let d1 := l1.takeWhile Char.isDigit
  let r1 := l1.dropWhile Char.isDigit
  if d1.isEmpty then none
  else
    match r1 with
    | '.' :: '.' :: r2 =>
      let d2 := r2.takeWhile Char.isDigit
      let r3 := r2.dropWhile Char.isDigit
      if d2.isEmpty then none
      else
        match r3.dropWhile pyIsSpace with
        | ']' :: _ => some (String.mk d1, String.mk d2)
        | _ => none
    | _ => none

/-- Try an ordered list of operator alternatives (regex `(?:op1|op2|...)`)
followed by a tail matcher, with full backtracking across alternatives. -/
def opThen {α : Type} (tail : List Char → Option α) : List String → List Char → Option α
  | [], _ => none
  | op :: ops, l =>
    match (if startsWithCh op.toList l then tail (List.drop op.toList.length l) else none) with
    | some v => some v
    | none => opThen tail ops l

/-- Backtracking over the greedy identifier group: try the name lengths
`k, k-1, ..., 1` (regex tries the longest first), feeding the rest of the
characters to `f`. -/
def tryIdentSplit {α : Type} (f : List Char → Option α) (run rest : List Char) :
    Nat → Option (String × α)
  | 0 => none
  | k + 1 =>
    match f (List.drop (k + 1) run ++ rest) with
    | some v => some (String.mk (run.take (k + 1)), v)
    | none => tryIdentSplit f run rest k

/-- Matcher applied after a `[` for the pattern
`\s*([a-zA-Z_][a-zA-Z0-9_]*)\s*<ops>...`: skip spaces, take the maximal
identifier run, then backtrack over its length. -/
def afterBracket {α : Type} (f : List Char → Option α) (l : List Char) :
    Option (String × α) :=
  let l1 := l.dropWhile pyIsSpace
  match l1 with
  | [] => none
  | c :: _ =>
    if isIdentStart c then
      let run := l1.takeWhile isWordCh
      let rest := l1.dropWhile isWordCh
      tryIdentSplit f run rest run.length
    else none

/-- `re.search` driver: try the bracket matcher at every `[` of the
string, left to right. -/
def searchBracketed {α : Type} (f : List Char → Option α) : List Char → Option α
  | [] => none
  | c :: rest =>
    if c = '[' then
      match f rest with
      | some r => some r
      | none => searchBracketed f rest
    else searchBracketed f rest

/-- `re.search(r'\[\s*([a-zA-Z_][a-zA-Z0-9_]*)\s*(?:==|:=|=)\s*(\d+)\s*\]', s)`
(src/t1.py, line 708). -/
def searchEq (s : String) : Option (String × String) :=
  searchBracketed
    (afterBracket (fun t => opThen digitsCloseTail ["==", ":=", "="] (t.dropWhile pyIsSpace)))
    s.toList

/-- `re.search(r'\[\s*([a-zA-Z_][a-zA-Z0-9_]*)\s*(?::|in|:∈)\s*(\d+\.\.\d+)\s*\]', s)`
(src/t1.py, line 716). -/
def searchRange (s : String) : Option (String × (String × String)) :=
  searchBracketed
    (afterBracket (fun t => opThen rangeCloseTail [":", "in", ":∈"] (t.dropWhile pyIsSpace)))
    s.toList

/-- `re.search(r'\[\s*([a-zA-Z_][a-zA-Z0-9_]*)\s*(?:<|>|<=|>=|!=)\s*(\d+)\s*\]', s)`
(src/t1.py, line 724). -/
def searchCmp (s : String) : Option (String × String) :=
  searchBracketed
    (afterBracket (fun t => opThen digitsCloseTail ["<", ">", "<=", ">=", "!="] (t.dropWhile pyIsSpace)))
    s.toList

/-- A guard-variable table entry: `{'val': ..., 'op': ...}`. -/
structure VarEntry where
  val : String
  op : String
deriving DecidableEq, Repr

/-- Lookup in the `variables` dict. -/
def dictGet : List (String × VarEntry) → String → Option VarEntry
  | [], _ => none
  | kv :: rest, k => if kv.1 == k then some kv.2 else dictGet rest k

/-- Assignment `variables[name] = entry` (Python dict: replace in place,
else append). -/
def dictSet : List (String × VarEntry) → String → VarEntry → List (String × VarEntry)
  | [], k, v => [(k, v)]
  | kv :: rest, k, v =>
    if kv.1 == k then (kv.1, v) :: rest else kv :: dictSet rest k v

/-- The loop body of `extract_variables_from_fragments` (src/t1.py,
lines 699-728) for a single element label. -/
def varStep (vars : List (String × VarEntry)) (label : String) : List (String × VarEntry) :=
  if label == "" then vars else
  let clean := pyStrip (clean_html label)
  match searchEq clean with
  | some nv => dictSet vars nv.1 ⟨nv.2, ":="⟩
  | none =>
    match searchRange clean with
    | some nr => dictSet vars nr.1 ⟨nr.2.1 ++ ".." ++ nr.2.2, ":∈"⟩
    | none =>
      match searchCmp clean with
      | some nc => if (dictGet vars nc.1).isSome then vars else dictSet vars nc.1 ⟨"0", ":="⟩
      | none => vars

/-- `extract_variables_from_fragments` (src/t1.py, lines 688-733),
post-parse: the input is the list of `value` attributes of all elements
in document order. -/
def extract_variables_from_fragments (labels : List String) : List (String × VarEntry) :=
  labels.foldl varStep []

-- ===================== events (t1.py generate_events) =====================

/-- `msg_instance = f"{msg_name}_{seq_id}"` (src/t1.py, line 606). -/
def msg_instance (msg : String) (seqId : Nat) : String := msg ++ "_" ++ toString seqId

/-- The two unconditional send guards of src/t1.py, lines 613-616. -/
def t1_base_send_guards (mi : String) : List String :=
  ["grd1: " ++ mi ++ " /: sentMessages", "grd2: currentMessage = \x7b\x7d"]

/-- The full send-guard list of one flow's send event (src/t1.py, lines
613-623): base guards plus, when the flow carries a truthy scope
condition, `grd3: <condition.strip()>`. -/
def t1_send_guards (flow : MessageFlow) (seqId : Nat) : List String :=
  let base := t1_base_send_guards (msg_instance flow.msg seqId)
  match flow.guard_cond with
  | some c => if c == "" then base else base ++ ["grd3: " ++ pyStrip c]
  | none => base

/-- The send-guard lists of all events emitted by `generate_events`
(src/t1.py, lines 588-649), in flow order with 1-based sequence ids. -/
def generate_events_send_guards (flows : List MessageFlow) : List (List String) :=
  (flows.enumFrom 1).map (fun p => t1_send_guards p.2 p.1)

-- ===================== index.py: detailed sequence and step events =====================

/-- Dict over optional-string keys (ids may be absent), used for the
`lifelines` map of src/index.py. -/
def odictGet : List (Option String × String) → Option String → Option String
  | [], _ => none
  | kv :: rest, k => if kv.1 == k then some kv.2 else odictGet rest k

/-- Assignment into the optional-key dict. -/
def odictSet : List (Option String × String) → Option String → String →
    List (Option String × String)
  | [], k, v => [(k, v)]
  | kv :: rest, k, v =>
    if kv.1 == k then (kv.1, v) :: rest else kv :: odictSet rest k v

/-- Python `str(x)` on an optional id, for `f"Obj_{elem.get('id')}"`. -/
def optIdStr : Option String → String
  | none => "None"
  | some s => s

/-- Lifeline display-name resolution of src/index.py, lines 240-242. -/
def idx_lifeline_name (e : MxCell) : String :=
  let val := clean_html e.value
  if hasChar val ':' then pyStrip (lastSplitColon val) else pyStrip val

/-- The lifeline map of `extract_detailed_sequence`
(src/index.py, lines 237-242): id ↦ resolved name. -/
def idx_lifeline_map (doc : List MxCell) : List (Option String × String) :=
  doc.foldl
    (fun acc e =>
      if e.tag == "mxCell" && hasSub e.style "umlLifeline" then
        let name := idx_lifeline_name e
        odictSet acc e.id (if name == "" then "Obj_" ++ optIdStr e.id else name)
      else acc) []

/-- `re.search(r'^([a-zA-Z0-9_]+)(?:\((.*?)\))?', s)` (src/index.py,
line 253): a leading word run, optionally followed by a parenthesised
lazy group; when the optional group cannot complete, the match succeeds
without it. -/
def matchLeadCall (s : String) : Option (String × Option String) :=
  let cs := s.toList
  let run := cs.takeWhile isWordCh
  if run.isEmpty then none
  else
    match cs.dropWhile isWordCh with
    | '(' :: rest2 =>
      (match takeUntilRParen rest2 with
       | some args => some (String.mk run, some (String.mk args))
       | none => some (String.mk run, none))
    | _ => some (String.mk run, none)

/-- One edge record of `extract_detailed_sequence` (src/index.py, lines
257-263). -/
structure IdxEdge where
  msg : String
  data : Option String
  sender : String
  receiver : String
  y : ℚ
deriving DecidableEq, Repr

/-- The edge-loop body of `extract_detailed_sequence` (src/index.py,
lines 245-263): `none` when the element is skipped. -/
def idx_edge_of (lmap : List (Option String × String)) (e : MxCell) : Option IdxEdge :=
  if e.tag == "mxCell" && e.edge && !(e.value == "") then
    let val := clean_html e.value
    let y := match e.geom with
      | some g => g.y.getD 0
      | none => 0
    match matchLeadCall val with
    | some na =>
      let dataName := match na.2 with
        | some d => if d == "" then none else some (pyStrip d)
        | none => none
      some { msg := pyStrip na.1, data := dataName,
             sender := (odictGet lmap e.source).getD "Unknown",
             receiver := (odictGet lmap e.target).getD "Unknown", y := y }
    | none => none
  else none

/-- `extract_detailed_sequence` (src/index.py, lines 230-267), post-parse. -/
def extract_detailed_sequence (doc : List MxCell) : List IdxEdge :=
  sortByKey (fun e => e.y) (doc.filterMap (idx_edge_of (idx_lifeline_map doc)))

/-- `f"{edge['msg']}_{i}"` of src/index.py. -/
def idx_msg_instance (e : IdxEdge) (i : Nat) : String := e.msg ++ "_" ++ toString i

/-- The send-guard lines of one send event of `generate_step_events`
(src/index.py, lines 277-285): the two base guards plus, for `i > 1`,
`grd3: <prev instance> ∈ receivedMessages`. -/
def idx_send_guards (edges : List IdxEdge) (i : Nat) (e : IdxEdge) : List String :=
  let m := idx_msg_instance e i
  let base := ["grd1: " ++ m ++ " ∉ sentMessages", "grd2: currentMessage = ∅"]
  if 1 < i then
    match edges.get? (i - 2) with
    | some prev => base ++ ["grd3: " ++ idx_msg_instance prev (i - 1) ++ " ∈ receivedMessages"]
    | none => base
  else base

/-- The send-guard lists of all events of `generate_step_events`
(src/index.py, lines 269-319), with the 1-based enumeration of the code. -/
def generate_step_events_send_guards (edges : List IdxEdge) : List (List String) :=
  (edges.enumFrom 1).map (fun p => idx_send_guards edges p.1 p.2)

-- ===================== index.py: loader =====================

/-- `extract_xml_root` (src/index.py, lines 31-50), with the external
primitives (markup parsing, base64, raw deflate, utf-8 decoding, percent
decoding, re-parsing) abstracted as oracle parameters; every `try` that
the Python wraps around the decode chain appears as an `Option`. -/
def extract_xml_root {T B : Type}
    (parseOutcome : Except String T)
    (findDiagramText : T → Option String)
    (b64decode : String → Option B)
    (rawInflate : B → Option B)
    (utf8decode : B → Option String)
    (unquote : String → String)
    (fromstring : String → Option T) : Except String T :=
  match parseOutcome with
  | .error e => .error ("อ่าน XML ไม่ได้: " ++ e)
  | .ok root =>
    match findDiagramText root with
    | none => .ok root
    | some txt =>
      if txt == "" then .ok root
      else
        match b64decode txt with
        | none => .ok root
        | some bs =>
          match rawInflate bs with
          | none => .ok root
          | some bs2 =>
            match utf8decode bs2 with
            | none => .ok root
            | some content =>
              match fromstring (unquote content) with
              | none => .ok root
              | some t => .ok t

-- ===================== t1.py: messages, objects, apply_rules_full =====================

/-- Python set semantics on a list: add the element only when absent. -/
def pyAddSet (acc : List String) (s : String) : List String :=
  if acc.contains s then acc else acc ++ [s]

/-- Lexicographic string order by code points, as Python compares strings. -/
def strLeB : List Char → List Char → Bool
  | [], _ => true
  | _ :: _, [] => false
  | a :: as, b :: bs => if a == b then strLeB as bs else decide (a < b)

/-- Insertion into an ascending list of strings. -/
def insertStr (s : String) : List String → List String
  | [] => [s]
  | t :: rest => if strLeB t.toList s.toList then t :: insertStr s rest else s :: t :: rest

/-- Ascending sort of strings (Python `sorted`). -/
def sortStrs (l : List String) : List String :=
  l.foldl (fun acc s => insertStr s acc) []

/-- Python `sorted(list(set(l)))`. -/
def pySortedSet (l : List String) : List String :=
  sortStrs (l.foldl pyAddSet [])

/-- `re.match(r'([a-zA-Z_][a-zA-Z0-9_]*)\s*\((.*?)\)', s)` used both by
`extract_messages_and_data` (src/t1.py, line 90) and by
`extract_messages_from_xml` (src/test.py, line 128): a leading
identifier, optional spaces, then a lazily-parenthesised group. -/
def matchMsgParen (s : String) : Option (String × String) :=
  match s.toList with
  | [] => none
  | c :: _ =>
    if isIdentStart c then
      let run := s.toList.takeWhile isWordCh
      let rest := s.toList.dropWhile isWordCh
      match rest.dropWhile pyIsSpace with
      | '(' :: rest2 => (takeUntilRParen rest2).map (fun a => (String.mk run, String.mk a))
      | _ => none
    else none

/-- The edge-loop body of `extract_messages_and_data` (src/t1.py, lines
78-110); the accumulator carries the `messages` and `data_messages` sets
in insertion order. -/
def emd_step (acc : List String × List String) (e : MxCell) : List String × List String :=
  if e.edge && !(e.value == "") then
    let clean := pyStrip (clean_html e.value)
    if clean == "" then acc
    else if hasChar clean '(' && hasChar clean ')' then
      match matchMsgParen clean with
      | some np =>
        let ps := ((splitCommas np.2).map pyStrip).filter (fun p => !(p == ""))
        (pyAddSet acc.1 (pyStrip np.1), ps.foldl pyAddSet acc.2)
      | none => acc
    else (pyAddSet acc.1 clean, acc.2)
  else acc

/-- `extract_messages_and_data` (src/t1.py, lines 67-116), post-parse:
the sorted message-name and data-name sets. -/
def extract_messages_and_data (doc : List MxCell) : List String × List String :=
  let r := doc.foldl emd_step ([], [])
  (sortStrs r.1, sortStrs r.2)

/-- The collection loop of `extract_objects_from_xml` (src/t1.py, lines
51-62). -/
def t1_objects_step (acc : List String) (e : MxCell) : List String :=
  if hasSub e.style "umlLifeline" then
    if e.value == "" then acc
    else if hasChar e.value ':' then
      let cn := pyStrip (lastSplitColon e.value)
      if cn == "" then acc else pyAddSet acc cn
    else pyAddSet acc (pyStrip e.value)
  else acc

/-- `extract_objects_from_xml` (src/t1.py, lines 45-65), post-parse. -/
def extract_objects_from_xml (doc : List MxCell) : List String :=
  sortStrs (doc.foldl t1_objects_step [])

/-- `msg_instances = [f"{f['msg']}_{i+1}" for i, f in enumerate(sequence_flows)]`
(src/t1.py, line 745). -/
def t1_msg_instances (flows : List MessageFlow) : List String :=
  (flows.enumFrom 1).map (fun p => p.2.msg ++ "_" ++ toString p.1)

/-- The identifiers listed in the `Messages` axiom of `apply_rules_full`
(src/t1.py, line 758): the raw message names, reversed. -/
def t1_axm2_messages (doc : List MxCell) : List String :=
  ((extract_messages_and_data doc).1).reverse

/-- `all_constants = objects + messages + data_messages + msg_instances`
(src/t1.py, line 753). -/
def t1_all_constants (doc : List MxCell) (flows : List MessageFlow) : List String :=
  extract_objects_from_xml doc ++ (extract_messages_and_data doc).1 ++
    (extract_messages_and_data doc).2 ++ t1_msg_instances flows

-- ===================== test.py: messages and vocabulary =====================

/-- Dict over string keys for the test.py lifeline map. -/
def sdictGet : List (String × String) → String → Option String
  | [], _ => none
  | kv :: rest, k => if kv.1 == k then some kv.2 else sdictGet rest k

/-- Assignment into the string-key dict. -/
def sdictSet : List (String × String) → String → String → List (String × String)
  | [], k, v => [(k, v)]
  | kv :: rest, k, v =>
    if kv.1 == k then (kv.1, v) :: rest else kv :: sdictSet rest k v

/-- `re.match(r'^[a-zA-Z_]\w*$', s)` as a full-string test. -/
def fullmatchIdent (s : String) : Bool :=
  match s.toList with
  | [] => false
  | c :: rest => isIdentStart c && rest.all isWordCh

/-- One message record of `extract_messages_from_xml` (src/test.py,
lines 145-151). -/
structure TestMsg where
  name : String
  sender : String
  receiver : String
  data : List String
  index : Nat
deriving DecidableEq, Repr

/-- Step 1 of src/test.py `extract_messages_from_xml` (lines 83-100):
the lifeline id ↦ class-name map. -/
def test_lifeline_map_step (acc : List (String × String)) (e : MxCell) :
    List (String × String) :=
  if e.tag == "mxCell" && hasSub e.style "umlLifeline" then
    match e.id with
    | some eid =>
      if eid == "" || e.value == "" then acc
      else if hasChar e.value ':' then
        let cn := pyStrip (lastSplitColon e.value)
        if cn == "" then acc else sdictSet acc eid cn
      else sdictSet acc eid (pyStrip e.value)
    | none => acc
  else acc

/-- Steps 2-3 of src/test.py `extract_messages_from_xml` (lines 102-152)
for one element; the accumulator carries the message list, the
data-message set and `message_index`. -/
def test_msg_step (lmap : List (String × String)) (acc : List TestMsg × List String × Nat)
    (e : MxCell) : List TestMsg × List String × Nat :=
  if e.tag == "mxCell" && e.edge then
    let value := pyStrip e.value
    if value == "" then acc else
    match e.source, e.target with
    | some sid, some tid =>
      if sid == "" || tid == "" then acc else
      match sdictGet lmap sid, sdictGet lmap tid with
      | some snd, some rcv =>
        if snd == "" || rcv == "" then acc else
        let parsed : Option (String × List String) :=
          if hasChar value '(' && hasChar value ')' then
            match matchMsgParen value with
            | some np =>
              let ps := pyStrip np.2
              let dps := if ps == "" then []
                else ((splitCommas ps).map pyStrip).filter
                  (fun p => !(p == "") && fullmatchIdent p)
              some (np.1, dps)
            | none => none
          else if fullmatchIdent value then
            some (value,
              if (value.toList.headD 'A').isLower then [value] else [])
          else none
        match parsed with
        | some nd =>
          (acc.1 ++ [{ name := nd.1, sender := snd, receiver := rcv,
                       data := nd.2, index := acc.2.2 }],
           nd.2.foldl pyAddSet acc.2.1, acc.2.2 + 1)
        | none => acc
      | _, _ => acc
    | _, _ => acc
  else acc

/-- `extract_messages_from_xml` of src/test.py (lines 72-157),
post-parse: the message list and the sorted data-message set. -/
def test_extract_messages (doc : List MxCell) : List TestMsg × List String :=
  let lmap := doc.foldl test_lifeline_map_step []
  let r := doc.foldl (test_msg_step lmap) ([], [], 1)
  (r.1, sortStrs r.2.1)

/-- The instance identifier `f"{msg['name']}_{msg['index']}"`. -/
def test_inst (m : TestMsg) : String := m.name ++ "_" ++ toString m.index

/-- `messages = sorted(list(set([f"{msg['name']}_{msg['index']}" ...])))`
(src/test.py, line 224): the message vocabulary of `apply_rules_1_to_5`,
which is also exactly the content of its `Messages` axiom (line 254). -/
def test_messages_vocab (doc : List MxCell) : List String :=
  pySortedSet ((test_extract_messages doc).1.map test_inst)

-- ===================== claim C3: geometry walk =====================

/-- A concrete malformed document whose parent references form a cycle:
`cycA`'s parent is `cycB` and vice versa, and `cycE` hangs below `cycA`. -/
def cycA : MxCell :=
  { id := some "A", tag := "mxCell", value := "", style := "", vertex := true,
    edge := false, parent := some "B", source := none, target := none,
    geom := some ⟨some 1, some 1, some 10, some 10, none, none⟩ }

/-- The second node of the parent cycle. -/
def cycB : MxCell :=
  { id := some "B", tag := "mxCell", value := "", style := "", vertex := true,
    edge := false, parent := some "A", source := none, target := none,
    geom := some ⟨some 2, some 2, some 10, some 10, none, none⟩ }

/-- A node with geometry whose parent chain enters the cycle. -/
def cycE : MxCell :=
  { id := some "E", tag := "mxCell", value := "", style := "", vertex := true,
    edge := false, parent := some "A", source := none, target := none,
    geom := some ⟨some 0, some 0, some 5, some 5, none, none⟩ }

/-- The cyclic document. -/
def cycDoc : List MxCell := [cycA, cycB, cycE]

/-- A node with no `mxGeometry` child. -/
def noGeomCell : MxCell :=
  { id := some "N", tag := "mxCell", value := "", style := "", vertex := true,
    edge := false, parent := none, source := none, target := none, geom := none }

theorem abs_walk_succ_of (doc : List MxCell) (k : Nat) (p : String) (pe : MxCell)
    (g : MxGeom) (x y : ℚ) (hg : parent_guard (some p) = true)
    (he : id_to_elem doc p = some pe) (hge : pe.geom = some g) :
    abs_walk doc (k + 1) (some p) x y =
      abs_walk doc k pe.parent (qadd x (g.x.getD 0)) (qadd y (g.y.getD 0)) := by
  simp [abs_walk, hg, he, hge]

/-- On the cyclic document the loop guard never becomes false: the walk
yields no result for any step budget, from either node of the cycle. -/
theorem abs_walk_cyc : ∀ (n : Nat) (x y : ℚ),
    abs_walk cycDoc n (some "A") x y = none ∧ abs_walk cycDoc n (some "B") x y = none := by
  intro n
  induction n with
  | zero => intro x y; exact ⟨rfl, rfl⟩
  | succ k ih =>
    intro x y
    refine ⟨?_, ?_⟩
    · rw [abs_walk_succ_of cycDoc k "A" cycA ⟨some 1, some 1, some 10, some 10, none, none⟩
        x y (by decide) (by decide) rfl]
      exact (ih _ _).2
    · rw [abs_walk_succ_of cycDoc k "B" cycB ⟨some 2, some 2, some 10, some 10, none, none⟩
        x y (by decide) (by decide) rfl]
      exact (ih _ _).1

/-- Claim C3 (code bug).  The claim asserts that missing geometry yields
the zero box and that the parent-chain walk is bounded by the node count
even on a parent cycle.  The code does neither: on the concrete cyclic
document the walk produces no result for any step budget whatsoever (the
`while` loop of `get_abs_geom` never exits), and a node without geometry
produces no box at all (`None`, so callers drop the element) instead of
the zero box. -/
theorem claim3_code_bug :
    (∀ fuel : Nat, get_abs_geom cycDoc fuel cycE = none) ∧
    get_abs_geom [noGeomCell] 5 noGeomCell = none := by
  refine ⟨?_, rfl⟩
  intro fuel
  have h := (abs_walk_cyc fuel (mkRat 0 1) (mkRat 0 1)).1
  simp only [get_abs_geom, cycE]
  rw [show ((⟨some 0, some 0, some 5, some 5, none, none⟩ : MxGeom).x.getD 0) = mkRat 0 1
        by decide]
  rw [h]

-- ===================== claim C8: loader fallback =====================

/-- Claim C8.  For a parsable document the loader never surfaces an
error: it answers `.error` exactly when the document itself cannot be
parsed, and then carries the underlying cause; and whenever the embedded
payload is present but any stage of the decode chain (base64, raw
deflate, utf-8 decode, re-parse) fails, the result is the original outer
tree unchanged. -/
theorem claim8_thm {T B : Type} (parseOutcome : Except String T)
    (findDiagramText : T → Option String) (b64decode : String → Option B)
    (rawInflate : B → Option B) (utf8decode : B → Option String)
    (unquote : String → String) (fromstring : String → Option T) :
    ((∃ e, extract_xml_root parseOutcome findDiagramText b64decode rawInflate utf8decode
        unquote fromstring = .error e) ↔ ∃ e, parseOutcome = .error e) ∧
    (∀ e, parseOutcome = .error e →
      extract_xml_root parseOutcome findDiagramText b64decode rawInflate utf8decode
        unquote fromstring = .error ("อ่าน XML ไม่ได้: " ++ e)) ∧
    (∀ root txt, parseOutcome = .ok root → findDiagramText root = some txt → txt ≠ "" →
      (b64decode txt = none ∨
       (∃ bs, b64decode txt = some bs ∧ rawInflate bs = none) ∨
       (∃ bs bs2, b64decode txt = some bs ∧ rawInflate bs = some bs2 ∧
          utf8decode bs2 = none) ∨
       (∃ bs bs2 content, b64decode txt = some bs ∧ rawInflate bs = some bs2 ∧
          utf8decode bs2 = some content ∧ fromstring (unquote content) = none)) →
      extract_xml_root parseOutcome findDiagramText b64decode rawInflate utf8decode
        unquote fromstring = .ok root) := by
  refine ⟨?_, ?_, ?_⟩
  · constructor
    · rintro ⟨e, he⟩
      cases hp : parseOutcome with
      | error e2 => exact ⟨e2, rfl⟩
      | ok root =>
        exfalso
        simp only [extract_xml_root, hp] at he
        repeat' split at he
        all_goals simp at he
    · rintro ⟨e, he⟩
      exact ⟨"อ่าน XML ไม่ได้: " ++ e, by simp only [extract_xml_root, he]⟩
  · intro e he
    simp only [extract_xml_root, he]
  · intro root txt hp hd ht hfail
    have ht2 : (txt == "") = false := by
      cases h : txt == "" with
      | true => exact absurd (by simpa using h) ht
      | false => rfl
    simp only [extract_xml_root, hp, hd, ht2, Bool.false_eq_true, if_false]
    rcases hfail with hb | ⟨bs, hb, hi⟩ | ⟨bs, bs2, hb, hi, hu⟩ |
      ⟨bs, bs2, content, hb, hi, hu, hf⟩
    · simp only [hb]
    · simp only [hb, hi]
    · simp only [hb, hi, hu]
    · simp only [hb, hi, hu, hf]

/-- Witness for claim C8 at a concrete instantiation: the inflate stage
fails, so the loader returns the outer tree. -/
theorem claim8_witness :
    extract_xml_root (T := Nat) (B := Nat) (.ok 7) (fun _ => some "payload")
      (fun _ => some 1) (fun _ => none) (fun _ => none) (fun s => s)
      (fun _ => none) = .ok 7 :=
  (claim8_thm (.ok 7) (fun _ => some "payload") (fun _ => some 1) (fun _ => none)
      (fun _ => none) (fun s => s) (fun _ => none)).2.2 7 "payload" rfl rfl
    (by decide) (Or.inr (Or.inl ⟨1, rfl, rfl⟩))

-- ===================== claim C1: ordering guard in send events =====================

theorem enumFrom_get? {α : Type} (n : Nat) (l : List α) (j : Nat) :
    (l.enumFrom n).get? j = (l.get? j).map (fun a => (n + j, a)) := by
  induction l generalizing n j with
  | nil => simp [List.enumFrom]
  | cons a t ih =>
    cases j with
    | zero => simp [List.enumFrom]
    | succ k =>
      simp only [List.enumFrom, List.get?_cons_succ, ih (n + 1) k]
      have hnk : n + 1 + k = n + (k + 1) := by omega
      simp only [hnk]

/-- A concrete first flow with no scope condition. -/
def cf1 : MessageFlow :=
  { msg := "a", fromName := "A", toName := "B", data := none, y := 1,
    opt_suffix := "", guard_cond := none }

/-- A concrete second flow with no scope condition. -/
def cf2 : MessageFlow :=
  { msg := "b", fromName := "B", toName := "A", data := none, y := 2,
    opt_suffix := "", guard_cond := none }

/-- Counterexample to claim C1 as stated.  In `generate_events` of
src/t1.py the send event of the second flow carries only the two base
guards; no guard of any send event so much as mentions
`receivedMessages`, so no guard requires flow 1's instance `a_1` to be a
member of it. -/
theorem claim1_counterexample :
    generate_events_send_guards [cf1, cf2] =
      [["grd1: a_1 /: sentMessages", "grd2: currentMessage = \x7b\x7d"],
       ["grd1: b_2 /: sentMessages", "grd2: currentMessage = \x7b\x7d"]] ∧
    (((generate_events_send_guards [cf1, cf2]).getD 1 []).all
      (fun g => !(hasSub g "receivedMessages"))) = true :=
  ⟨by decide, by decide⟩

/-- Claim C1 amended.  In `generate_step_events` of src/index.py every
send event for a flow at 0-based position `j ≥ 1` carries the guard
`grd3: <previous instance> ∈ receivedMessages` (and the first send event
carries exactly the two base guards); `generate_events` of src/t1.py
instead emits only the two base guards plus, when present, the scope
condition — never a predecessor-received guard. -/
theorem claim1_amended :
    (∀ (edges : List IdxEdge) (j : Nat) (e : IdxEdge), edges.get? j = some e → 1 ≤ j →
      ∃ prev, edges.get? (j - 1) = some prev ∧
        (generate_step_events_send_guards edges).get? j =
          some (idx_send_guards edges (j + 1) e) ∧
        ("grd3: " ++ idx_msg_instance prev j ++ " ∈ receivedMessages")
          ∈ idx_send_guards edges (j + 1) e) ∧
    (∀ (edges : List IdxEdge) (e : IdxEdge), edges.get? 0 = some e →
      idx_send_guards edges 1 e =
        ["grd1: " ++ idx_msg_instance e 1 ++ " ∉ sentMessages",
         "grd2: currentMessage = ∅"]) ∧
    (∀ (flow : MessageFlow) (k : Nat),
      t1_send_guards flow k = t1_base_send_guards (msg_instance flow.msg k) ∨
      ∃ c, flow.guard_cond = some c ∧ ¬(c = "") ∧
        t1_send_guards flow k =
          t1_base_send_guards (msg_instance flow.msg k) ++ ["grd3: " ++ pyStrip c]) := by
  refine ⟨?_, ?_, ?_⟩
  · intro edges j e hj h1
    have hlen : j < edges.length := by
      by_contra hc
      rw [List.get?_eq_none.mpr (Nat.le_of_not_lt hc)] at hj
      exact Option.noConfusion hj
    have hlen2 : j - 1 < edges.length := Nat.lt_of_le_of_lt (Nat.sub_le j 1) hlen
    have hprev : edges.get? (j - 1) = some (edges.get ⟨j - 1, hlen2⟩) :=
      List.get?_eq_get hlen2
    refine ⟨edges.get ⟨j - 1, hlen2⟩, hprev, ?_, ?_⟩
    · rw [generate_step_events_send_guards, List.get?_map, enumFrom_get? 1 edges j, hj]
      simp [Nat.add_comm 1 j]
    · rw [idx_send_guards]
      have h2 : 1 < j + 1 := Nat.lt_succ_of_le h1
      rw [if_pos h2]
      have : j + 1 - 2 = j - 1 := by omega
      rw [this, hprev]
      have hji : j + 1 - 1 = j := by omega
      rw [hji]
      simp
  · intro edges e _
    rw [idx_send_guards]
    rfl
  · intro flow k
    rw [t1_send_guards]
    cases hc : flow.guard_cond with
    | none => exact Or.inl rfl
    | some c =>
      by_cases hce : c == ""
      · refine Or.inl ?_
        simp [hce]
      · refine Or.inr ⟨c, rfl, by simpa using hce, ?_⟩
        simp [hce]

/-- Witness for the amended claim C1 at two concrete flows. -/
theorem claim1_witness :
    ∃ prev, [⟨"a", none, "A", "B", 1⟩, ⟨"b", none, "B", "A", 2⟩].get? 0 = some prev ∧
      (generate_step_events_send_guards
          [⟨"a", none, "A", "B", 1⟩, ⟨"b", none, "B", "A", 2⟩]).get? 1 =
        some (idx_send_guards [⟨"a", none, "A", "B", 1⟩, ⟨"b", none, "B", "A", 2⟩] 2
          ⟨"b", none, "B", "A", 2⟩) ∧
      ("grd3: " ++ idx_msg_instance prev 1 ++ " ∈ receivedMessages")
        ∈ idx_send_guards [⟨"a", none, "A", "B", 1⟩, ⟨"b", none, "B", "A", 2⟩] 2
          ⟨"b", none, "B", "A", 2⟩ :=
  claim1_amended.1 [⟨"a", none, "A", "B", 1⟩, ⟨"b", none, "B", "A", 2⟩] 1
    ⟨"b", none, "B", "A", 2⟩ (by decide) (by decide)

-- ===================== claim C2: guard-variable overwrite policy =====================

theorem dictGet_set_self (d : List (String × VarEntry)) (k : String) (v : VarEntry) :
    dictGet (dictSet d k v) k = some v := by
  induction d with
  | nil => simp [dictSet, dictGet]
  | cons kv rest ih =>
    by_cases h : (kv.1 == k) = true
    · simp [dictSet, dictGet, h]
    · simp [dictSet, dictGet, h, ih]

theorem dictGet_set_other (d : List (String × VarEntry)) (k k' : String) (v : VarEntry)
    (h : ¬(k = k')) : dictGet (dictSet d k v) k' = dictGet d k' := by
  induction d with
  | nil =>
    have : (k == k') = false := by simpa using h
    simp [dictSet, dictGet, this]
  | cons kv rest ih =>
    by_cases hk : (kv.1 == k) = true
    · have h1 : kv.1 = k := by simpa using hk
      have h2 : (kv.1 == k') = false := by simp [h1]; exact h
      simp [dictSet, dictGet, hk, h2]
    · by_cases hk2 : (kv.1 == k') = true
      · simp [dictSet, dictGet, hk, hk2]
      · simp [dictSet, dictGet, hk, hk2, ih]

/-- Whether a label would re-classify `name` through the assignment or
range form (the two forms that overwrite unconditionally). -/
def reclassifies (l name : String) : Bool :=
  (match searchEq (pyStrip (clean_html l)) with
   | some nv => nv.1 == name
   | none => false) ||
  (match searchRange (pyStrip (clean_html l)) with
   | some nr => nr.1 == name
   | none => false)

theorem varStep_preserves (vars : List (String × VarEntry)) (l name : String) (e : VarEntry)
    (hv : dictGet vars name = some e) (hr : reclassifies l name = false) :
    dictGet (varStep vars l) name = some e := by
  by_cases hl : (l == "") = true
  · simp [varStep, hl, hv]
  · rw [reclassifies] at hr
    cases hq : searchEq (pyStrip (clean_html l)) with
    | some nv =>
      simp only [hq] at hr
      have h1 : (nv.1 == name) = false := by
        cases h : nv.1 == name
        · rfl
        · rw [h] at hr; simp at hr
      have h2 : ¬(nv.1 = name) := by simpa using h1
      simp only [varStep, hl, Bool.false_eq_true, if_false, hq]
      rw [dictGet_set_other _ _ _ _ h2]
      exact hv
    | none =>
      simp only [hq] at hr
      cases hq2 : searchRange (pyStrip (clean_html l)) with
      | some nr =>
        simp only [hq2] at hr
        have h1 : (nr.1 == name) = false := by
          cases h : nr.1 == name
          · rfl
          · rw [h] at hr; simp at hr
        have h2 : ¬(nr.1 = name) := by simpa using h1
        simp only [varStep, hl, Bool.false_eq_true, if_false, hq, hq2]
        rw [dictGet_set_other _ _ _ _ h2]
        exact hv
      | none =>
        cases hq3 : searchCmp (pyStrip (clean_html l)) with
        | some nc =>
          by_cases hnc : (nc.1 == name) = true
          · have he : nc.1 = name := by simpa using hnc
            have hs : (dictGet vars nc.1).isSome = true := by rw [he, hv]; rfl
            simp [varStep, hl, hq, hq2, hq3, hs, hv]
          · have h2 : ¬(nc.1 = name) := by simpa using hnc
            by_cases hs : (dictGet vars nc.1).isSome = true
            · simp [varStep, hl, hq, hq2, hq3, hs, hv]
            · have hs2 : (dictGet vars nc.1).isSome = false := by
                cases h : (dictGet vars nc.1).isSome
                · rfl
                · exact absurd h hs
              simp only [varStep, hl, Bool.false_eq_true, if_false, hq, hq2, hq3, hs2]
              rw [dictGet_set_other _ _ _ _ h2]
              exact hv
        | none => simp [varStep, hl, hq, hq2, hq3, hv]

/-- Counterexample to claim C2 as stated.  The name `x` is first
registered as the deterministic assignment `x := 1`; the later bracketed
assignment mention `[x=2]` changes the stored value to `2`. -/
theorem claim2_counterexample :
    dictGet (extract_variables_from_fragments ["[x=1]"]) "x" = some ⟨"1", ":="⟩ ∧
    dictGet (extract_variables_from_fragments ["[x=1]", "[x=2]"]) "x" = some ⟨"2", ":="⟩ ∧
    (VarEntry.mk "2" ":=" ≠ VarEntry.mk "1" ":=") :=
  ⟨by decide, by decide, by decide⟩

/-- Claim C2 amended.  Once a name is registered, later labels that
mention it only in comparison form (or not at all) never change its
entry; but a later assignment-form or range-form mention *does* replace
the stored entry (last assignment/range wins).  Only the
comparison-default form is first-write-protected. -/
theorem claim2_amended :
    (∀ (vars : List (String × VarEntry)) (extra : List String) (name : String) (e : VarEntry),
      dictGet vars name = some e → (∀ l ∈ extra, reclassifies l name = false) →
      dictGet (extra.foldl varStep vars) name = some e) ∧
    (∀ (labels : List String) (l name v : String),
      searchEq (pyStrip (clean_html l)) = some (name, v) →
      dictGet (extract_variables_from_fragments (labels ++ [l])) name = some ⟨v, ":="⟩) ∧
    (∀ (labels : List String) (l name lo hi : String),
      searchEq (pyStrip (clean_html l)) = none →
      searchRange (pyStrip (clean_html l)) = some (name, (lo, hi)) →
      dictGet (extract_variables_from_fragments (labels ++ [l])) name =
        some ⟨lo ++ ".." ++ hi, ":∈"⟩) := by
  refine ⟨?_, ?_, ?_⟩
  · intro vars extra
    induction extra generalizing vars with
    | nil => intro name e hv _; exact hv
    | cons l rest ih =>
      intro name e hv hr
      exact ih (varStep vars l) name e
        (varStep_preserves vars l name e hv (hr l (List.mem_cons_self l rest)))
        (fun l2 h2 => hr l2 (List.mem_cons_of_mem l h2))
  · intro labels l name v hq
    have hl : (l == "") = false := by
      cases h : l == "" with
      | true =>
        exfalso
        have : l = "" := by simpa using h
        rw [this] at hq
        have hnone : searchEq (pyStrip (clean_html "")) = none := by decide
        rw [hnone] at hq
        exact Option.noConfusion hq
      | false => rfl
    rw [extract_variables_from_fragments, List.foldl_append]
    simp only [List.foldl_cons, List.foldl_nil]
    simp only [varStep, hl, Bool.false_eq_true, if_false, hq]
    exact dictGet_set_self _ _ _
  · intro labels l name lo hi hq hq2
    have hl : (l == "") = false := by
      cases h : l == "" with
      | true =>
        exfalso
        have : l = "" := by simpa using h
        rw [this] at hq2
        have hnone : searchRange (pyStrip (clean_html "")) = none := by decide
        rw [hnone] at hq2
        exact Option.noConfusion hq2
      | false => rfl
    rw [extract_variables_from_fragments, List.foldl_append]
    simp only [List.foldl_cons, List.foldl_nil]
    simp only [varStep, hl, Bool.false_eq_true, if_false, hq, hq2]
    exact dictGet_set_self _ _ _

/-- Witness for the amended claim C2: an entry for `x` survives a later
comparison-only mention. -/
theorem claim2_witness :
    dictGet (["[x<5]"].foldl varStep [("x", ⟨"1", ":="⟩)]) "x" = some ⟨"1", ":="⟩ :=
  claim2_amended.1 [("x", ⟨"1", ":="⟩)] ["[x<5]"] "x" ⟨"1", ":="⟩ (by decide)
    (by intro l hl; simp at hl; rw [hl]; decide)

-- ===================== claim C10: shape of guard-variable entries =====================

theorem all_takeWhile (p : Char → Bool) (l : List Char) : (l.takeWhile p).all p = true := by
  induction l with
  | nil => rfl
  | cons c rest ih => by_cases h : p c = true <;> simp [List.takeWhile, h, ih]

theorem digitsCloseTail_digits (l : List Char) (v : String)
    (h : digitsCloseTail l = some v) : isDigitsStr v = true := by
  simp only [digitsCloseTail] at h
  split at h
  · exact Option.noConfusion h
  · split at h
    · cases h
      rename_i hne _ _ _
      simp [isDigitsStr, all_takeWhile, hne]
    · exact Option.noConfusion h

theorem rangeCloseTail_digits (l : List Char) (p : String × String)
    (h : rangeCloseTail l = some p) :
    isDigitsStr p.1 = true ∧ isDigitsStr p.2 = true := by
  simp only [rangeCloseTail] at h
  by_cases h1 : ((l.dropWhile pyIsSpace).takeWhile Char.isDigit).isEmpty = true
  · rw [if_pos h1] at h; exact Option.noConfusion h
  · rw [if_neg h1] at h
    split at h
    · rename_i r2 heq
      by_cases h2 : (r2.takeWhile Char.isDigit).isEmpty = true
      · rw [if_pos h2] at h; exact Option.noConfusion h
      · rw [if_neg h2] at h
        split at h
        · cases h
          exact ⟨by simp [isDigitsStr, all_takeWhile, h1],
                 by simp [isDigitsStr, all_takeWhile, h2]⟩
        · exact Option.noConfusion h
    · exact Option.noConfusion h

theorem opThen_pred {α : Type} (P : α → Prop) (tail : List Char → Option α)
    (hp : ∀ l v, tail l = some v → P v) :
    ∀ (ops : List String) (l : List Char) (v : α), opThen tail ops l = some v → P v := by
  intro ops
  induction ops with
  | nil => intro l v h; exact Option.noConfusion h
  | cons op rest ih =>
    intro l v h
    rw [opThen] at h
    split at h
    · rename_i v2 heq
      cases h
      split at heq
      · exact hp _ _ heq
      · exact Option.noConfusion heq
    · exact ih l v h

theorem tryIdentSplit_pred {α : Type} (Q : α → Prop) (f : List Char → Option α)
    (run rest : List Char) (hp : ∀ l v, f l = some v → Q v) :
    ∀ (k : Nat) (nv : String × α), tryIdentSplit f run rest k = some nv → Q nv.2 := by
  intro k
  induction k with
  | zero => intro nv h; exact Option.noConfusion h
  | succ k ih =>
    intro nv h
    rw [tryIdentSplit] at h
    cases hf : f (List.drop (k + 1) run ++ rest) with
    | some v => simp only [hf] at h; cases h; exact hp _ _ hf
    | none => simp only [hf] at h; exact ih nv h

theorem afterBracket_pred {α : Type} (Q : α → Prop) (f : List Char → Option α)
    (hp : ∀ l v, f l = some v → Q v) :
    ∀ (l : List Char) (nv : String × α), afterBracket f l = some nv → Q nv.2 := by
  intro l nv h
  simp only [afterBracket] at h
  split at h
  · exact Option.noConfusion h
  · split at h
    · exact tryIdentSplit_pred Q f _ _ hp _ nv h
    · exact Option.noConfusion h

theorem searchBracketed_pred {α : Type} (P : α → Prop) (f : List Char → Option α)
    (hp : ∀ l r, f l = some r → P r) :
    ∀ (cs : List Char) (r : α), searchBracketed f cs = some r → P r := by
  intro cs
  induction cs with
  | nil => intro r h; exact Option.noConfusion h
  | cons c rest ih =>
    intro r h
    rw [searchBracketed] at h
    by_cases hc : c = '['
    · rw [if_pos hc] at h
      cases hf : f rest with
      | some r2 => simp only [hf] at h; cases h; exact hp rest _ hf
      | none => simp only [hf] at h; exact ih r h
    · rw [if_neg hc] at h; exact ih r h

theorem searchEq_digits (s n v : String) (h : searchEq s = some (n, v)) :
    isDigitsStr v = true := by
  have := searchBracketed_pred (fun (nv : String × String) => isDigitsStr nv.2 = true) _
    (afterBracket_pred (fun v => isDigitsStr v = true) _
      (fun l v hv => opThen_pred (fun v => isDigitsStr v = true) digitsCloseTail
        (fun l2 v2 h2 => digitsCloseTail_digits l2 v2 h2) _ _ v hv))
    s.toList (n, v) h
  exact this

theorem searchRange_digits (s n : String) (p : String × String)
    (h : searchRange s = some (n, p)) :
    isDigitsStr p.1 = true ∧ isDigitsStr p.2 = true := by
  have := searchBracketed_pred
    (fun (nv : String × String × String) => isDigitsStr nv.2.1 = true ∧ isDigitsStr nv.2.2 = true) _
    (afterBracket_pred (fun (q : String × String) => isDigitsStr q.1 = true ∧ isDigitsStr q.2 = true) _
      (fun l v hv => opThen_pred
        (fun (q : String × String) => isDigitsStr q.1 = true ∧ isDigitsStr q.2 = true)
        rangeCloseTail (fun l2 v2 h2 => rangeCloseTail_digits l2 v2 h2) _ _ v hv))
    s.toList (n, p) h
  exact this

/-- The shape every guard-variable entry must have: a deterministic
assignment of a decimal literal, or a non-deterministic membership in a
decimal range. -/
def entryShape (e : VarEntry) : Prop :=
  (e.op = ":=" ∧ isDigitsStr e.val = true) ∨
  (e.op = ":∈" ∧ ∃ lo hi, e.val = lo ++ ".." ++ hi ∧
    isDigitsStr lo = true ∧ isDigitsStr hi = true)

theorem dictGet_set (d : List (String × VarEntry)) (k n : String) (v : VarEntry) :
    dictGet (dictSet d k v) n = if k = n then some v else dictGet d n := by
  by_cases h : k = n
  · rw [if_pos h, h, dictGet_set_self]
  · rw [if_neg h, dictGet_set_other _ _ _ _ h]

theorem varStep_shape (vars : List (String × VarEntry)) (l : String)
    (hv : ∀ n e, dictGet vars n = some e → entryShape e) :
    ∀ n e, dictGet (varStep vars l) n = some e → entryShape e := by
  intro n e h
  by_cases hl : (l == "") = true
  · rw [varStep, if_pos hl] at h; exact hv n e h
  · cases hq : searchEq (pyStrip (clean_html l)) with
    | some nv =>
      simp only [varStep, hl, Bool.false_eq_true, if_false, hq] at h
      rw [dictGet_set] at h
      split at h
      · cases h
        exact Or.inl ⟨rfl, searchEq_digits _ _ _ hq⟩
      · exact hv n e h
    | none =>
      cases hq2 : searchRange (pyStrip (clean_html l)) with
      | some nr =>
        simp only [varStep, hl, Bool.false_eq_true, if_false, hq, hq2] at h
        rw [dictGet_set] at h
        split at h
        · cases h
          obtain ⟨h1, h2⟩ := searchRange_digits _ _ _ hq2
          exact Or.inr ⟨rfl, nr.2.1, nr.2.2, rfl, h1, h2⟩
        · exact hv n e h
      | none =>
        cases hq3 : searchCmp (pyStrip (clean_html l)) with
        | some nc =>
          simp only [varStep, hl, Bool.false_eq_true, if_false, hq, hq2, hq3] at h
          split at h
          · exact hv n e h
          · rw [dictGet_set] at h
            split at h
            · cases h
              exact Or.inl ⟨rfl, by decide⟩
            · exact hv n e h
        | none =>
          simp only [varStep, hl, Bool.false_eq_true, if_false, hq, hq2, hq3] at h
          exact hv n e h

/-- Claim C10.  Every entry the guard-variable extractor produces is a
deterministic `:=` of a non-negative decimal literal or a
non-deterministic `:∈` of a `lo..hi` decimal range (so every generated
initialisation action assigns a numeric literal or numeric range), and
bracketed predicates whose right-hand side is a word, a negative number
or a decimal fraction produce no entry at all. -/
theorem claim10_thm :
    (∀ (labels : List String) (name : String) (e : VarEntry),
      dictGet (extract_variables_from_fragments labels) name = some e → entryShape e) ∧
    extract_variables_from_fragments ["[x=abc]"] = [] ∧
    extract_variables_from_fragments ["[x=-1]"] = [] ∧
    extract_variables_from_fragments ["[x=1.5]"] = [] := by
  refine ⟨?_, by decide, by decide, by decide⟩
  intro labels
  suffices hgen : ∀ (vars : List (String × VarEntry)),
      (∀ n e, dictGet vars n = some e → entryShape e) →
      ∀ n e, dictGet (labels.foldl varStep vars) n = some e → entryShape e by
    exact hgen [] (fun n e h => Option.noConfusion h)
  induction labels with
  | nil => intro vars hv; exact hv
  | cons l rest ih =>
    intro vars hv
    exact ih (varStep vars l) (varStep_shape vars l hv)

/-- Witness for claim C10 at a concrete table. -/
theorem claim10_witness : entryShape ⟨"3", ":="⟩ :=
  claim10_thm.1 ["[x=3]"] "x" ⟨"3", ":="⟩ (by decide)

-- ===================== claim C7: innermost-wins scope attribution =====================

/-- Characterisation of the scope-matching fold: either no containing
scope improves on the accumulator (which is then returned unchanged), or
the result is the data of a containing scope of minimal height. -/
theorem matchScopeRun_char (y : ℚ) :
    ∀ (l : List Scope) (t0 : String) (c0 : Option String) (m0 : Option ℚ),
      (matchScopeRun y l (t0, c0, m0) = (t0, c0, m0) ∧
        (∀ s ∈ l, scContains s y = true → ∃ m, m0 = some m ∧ m ≤ s.height)) ∨
      (∃ s ∈ l, scContains s y = true ∧
        matchScopeRun y l (t0, c0, m0) = (s.type, s.condition, some s.height) ∧
        (∀ s2 ∈ l, scContains s2 y = true → s.height ≤ s2.height) ∧
        (∀ m, m0 = some m → s.height < m)) := by
  intro l
  induction l with
  | nil => intro t0 c0 m0; exact Or.inl ⟨rfl, by simp⟩
  | cons s rest ih =>
    intro t0 c0 m0
    by_cases hc : scContains s y = true
    · cases m0 with
      | none =>
        have hrun : matchScopeRun y (s :: rest) (t0, c0, none) =
            matchScopeRun y rest (s.type, s.condition, some s.height) := by
          rw [matchScopeRun, if_pos hc]
        rcases ih s.type s.condition (some s.height) with ⟨he, hall⟩ |
          ⟨s1, hm1, hc1, he1, hmin1, hlt1⟩
        · refine Or.inr ⟨s, List.mem_cons_self s rest, hc, by rw [hrun, he], ?_, ?_⟩
          · intro s2 h2 hc2
            rcases List.mem_cons.mp h2 with h2 | h2
            · rw [h2]
            · obtain ⟨m, hm, hle⟩ := hall s2 h2 hc2
              cases hm
              exact hle
          · intro m hm; exact Option.noConfusion hm
        · refine Or.inr ⟨s1, List.mem_cons_of_mem s hm1, hc1, by rw [hrun, he1], ?_, ?_⟩
          · intro s2 h2 hc2
            rcases List.mem_cons.mp h2 with h2 | h2
            · rw [h2]; exact le_of_lt (hlt1 s.height rfl)
            · exact hmin1 s2 h2 hc2
          · intro m hm; exact Option.noConfusion hm
      | some m0 =>
        by_cases hlt : s.height < m0
        · have hrun : matchScopeRun y (s :: rest) (t0, c0, some m0) =
              matchScopeRun y rest (s.type, s.condition, some s.height) := by
            rw [matchScopeRun, if_pos hc]; simp [hlt]
          rcases ih s.type s.condition (some s.height) with ⟨he, hall⟩ |
            ⟨s1, hm1, hc1, he1, hmin1, hlt1⟩
          · refine Or.inr ⟨s, List.mem_cons_self s rest, hc, by rw [hrun, he], ?_, ?_⟩
            · intro s2 h2 hc2
              rcases List.mem_cons.mp h2 with h2 | h2
              · rw [h2]
              · obtain ⟨m, hm, hle⟩ := hall s2 h2 hc2
                cases hm
                exact hle
            · intro m hm; cases hm; exact hlt
          · refine Or.inr ⟨s1, List.mem_cons_of_mem s hm1, hc1, by rw [hrun, he1], ?_, ?_⟩
            · intro s2 h2 hc2
              rcases List.mem_cons.mp h2 with h2 | h2
              · rw [h2]; exact le_of_lt (hlt1 s.height rfl)
              · exact hmin1 s2 h2 hc2
            · intro m hm; cases hm; exact lt_trans (hlt1 s.height rfl) hlt
        · have hrun : matchScopeRun y (s :: rest) (t0, c0, some m0) =
              matchScopeRun y rest (t0, c0, some m0) := by
            rw [matchScopeRun, if_pos hc]; simp [hlt]
          rcases ih t0 c0 (some m0) with ⟨he, hall⟩ | ⟨s1, hm1, hc1, he1, hmin1, hlt1⟩
          · refine Or.inl ⟨by rw [hrun, he], ?_⟩
            intro s2 h2 hc2
            rcases List.mem_cons.mp h2 with h2 | h2
            · exact ⟨m0, rfl, by rw [h2]; exact le_of_not_lt hlt⟩
            · exact hall s2 h2 hc2
          · refine Or.inr ⟨s1, List.mem_cons_of_mem s hm1, hc1, by rw [hrun, he1], ?_, hlt1⟩
            intro s2 h2 hc2
            rcases List.mem_cons.mp h2 with h2 | h2
            · rw [h2]
              exact le_of_lt (lt_of_lt_of_le (hlt1 m0 rfl) (le_of_not_lt hlt))
            · exact hmin1 s2 h2 hc2
    · have hrun : matchScopeRun y (s :: rest) (t0, c0, m0) =
          matchScopeRun y rest (t0, c0, m0) := by
        rw [matchScopeRun, if_neg hc]
      rcases ih t0 c0 m0 with ⟨he, hall⟩ | ⟨s1, hm1, hc1, he1, hmin1, hlt1⟩
      · refine Or.inl ⟨by rw [hrun, he], ?_⟩
        intro s2 h2 hc2
        rcases List.mem_cons.mp h2 with h2 | h2
        · rw [h2] at hc2; exact absurd hc2 hc
        · exact hall s2 h2 hc2
      · refine Or.inr ⟨s1, List.mem_cons_of_mem s hm1, hc1, by rw [hrun, he1], ?_, hlt1⟩
        intro s2 h2 hc2
        rcases List.mem_cons.mp h2 with h2 | h2
        · rw [h2] at hc2; exact absurd hc2 hc
        · exact hmin1 s2 h2 hc2

/-- Claim C7.  When at least one scope vertically contains the flow's y,
the matched suffix and guard come from a containing scope of minimal
bounding-box height; and every flow produced by the edge loop takes its
suffix and guard exactly from this matching over its own y. -/
theorem claim7_thm :
    (∀ (scopes : List Scope) (y : ℚ), (∃ s ∈ scopes, scContains s y = true) →
      ∃ s ∈ scopes, scContains s y = true ∧
        (∀ s2 ∈ scopes, scContains s2 y = true → s.height ≤ s2.height) ∧
        matchScope scopes y = (s.type, s.condition)) ∧
    (∀ (lifelines : List Lifeline) (scopes : List Scope) (e : MxCell) (fl : MessageFlow),
      phase3Edge lifelines scopes e = some fl →
      (fl.opt_suffix, fl.guard_cond) = matchScope scopes fl.y) := by
  constructor
  · intro scopes y hex
    rcases matchScopeRun_char y scopes "" none none with ⟨_, hall⟩ | ⟨s, hm, hc, he, hmin, _⟩
    · obtain ⟨s, hs, hcs⟩ := hex
      obtain ⟨m, hm, _⟩ := hall s hs hcs
      exact Option.noConfusion hm
    · exact ⟨s, hm, hc, hmin, by rw [matchScope, he]⟩
  · intro ls ss e fl h
    simp only [phase3Edge] at h
    repeat' split at h
    all_goals first
      | exact Option.noConfusion h
      | (cases h; rfl)

/-- Witness for claim C7: a flow at y = 5 inside a tall scope and a
short nested scope. -/
theorem claim7_witness :
    ∃ s ∈ [Scope.mk (some "o") "_opt1" 0 100 0 100 100 none,
           Scope.mk (some "l") "_loop2" 0 10 0 50 10 (some "x=1")],
      scContains s 5 = true ∧
      (∀ s2 ∈ [Scope.mk (some "o") "_opt1" 0 100 0 100 100 none,
               Scope.mk (some "l") "_loop2" 0 10 0 50 10 (some "x=1")],
        scContains s2 5 = true → s.height ≤ s2.height) ∧
      matchScope [Scope.mk (some "o") "_opt1" 0 100 0 100 100 none,
                  Scope.mk (some "l") "_loop2" 0 10 0 50 10 (some "x=1")] 5 =
        (s.type, s.condition) :=
  claim7_thm.1 _ 5 ⟨Scope.mk (some "o") "_opt1" 0 100 0 100 100 none,
    List.mem_cons_self _ _, by decide⟩

-- ===================== claim C4: unresolved endpoints =====================

theorem mem_insertByKey {α : Type} (key : α → ℚ) (a x : α) (l : List α) :
    x ∈ insertByKey key a l ↔ x = a ∨ x ∈ l := by
  induction l with
  | nil => simp [insertByKey]
  | cons b rest ih =>
    rw [insertByKey]
    by_cases h : decide (key b ≤ key a) = true
    · rw [if_pos h]
      simp only [List.mem_cons, ih]
      tauto
    · rw [if_neg h]
      simp only [List.mem_cons]

theorem mem_sortByKey {α : Type} (key : α → ℚ) (x : α) (l : List α) :
    x ∈ sortByKey key l ↔ x ∈ l := by
  rw [sortByKey]
  suffices h : ∀ acc : List α,
      (x ∈ l.foldl (fun acc a => insertByKey key a acc) acc ↔ x ∈ acc ∨ x ∈ l) by
    simpa using h []
  induction l with
  | nil => intro acc; simp
  | cons a rest ih =>
    intro acc
    rw [List.foldl_cons, ih]
    simp only [mem_insertByKey, List.mem_cons]
    tauto

theorem phase3Edge_fromName (ls : List Lifeline) (ss : List Scope) (e : MxCell)
    (fl : MessageFlow) (h : phase3Edge ls ss e = some fl) :
    fl.fromName ≠ "Unknown" ∧ fl.fromName ≠ "" := by
  simp only [phase3Edge] at h
  by_cases he : (!e.edge) = true
  · rw [if_pos he] at h; exact Option.noConfusion h
  · rw [if_neg he] at h
    by_cases hm : (pyStrip (clean_html e.value) == "") = true
    · rw [if_pos hm] at h; exact Option.noConfusion h
    · rw [if_neg hm] at h
      by_cases hg : (optFalsy (resolveFromPoints ls e).1 ||
          ((resolveFromPoints ls e).1 == some "Unknown")) = true
      · rw [if_pos hg] at h; exact Option.noConfusion h
      · rw [if_neg hg] at h
        have h1 : optFalsy (resolveFromPoints ls e).1 = false := by
          cases hx : optFalsy (resolveFromPoints ls e).1
          · rfl
          · rw [hx] at hg; simp at hg
        have h2 : ((resolveFromPoints ls e).1 == some "Unknown") = false := by
          cases hx : ((resolveFromPoints ls e).1 == some "Unknown")
          · rfl
          · rw [hx] at hg; simp at hg
        cases h
        cases hr : (resolveFromPoints ls e).1 with
        | none => rw [hr] at h1; exact absurd h1 (by simp [optFalsy])
        | some s =>
          rw [hr] at h1 h2
          have hs1 : s ≠ "Unknown" := by
            intro hcon; rw [hcon] at h2; simp at h2
          have hs2 : s ≠ "" := by
            intro hcon; rw [hcon] at h1; simp [optFalsy] at h1
          simp only [hr, Option.getD_some]
          exact ⟨hs1, hs2⟩

/-- Claim C4.  An edge whose sender resolution is falsy or `"Unknown"`
is dropped by the flow loop; every flow in the extractor's output has a
usable sender name; and an edge with a resolvable sender but an
unresolved receiver is kept, with receiver `"Unknown"`. -/
theorem claim4_thm :
    (∀ (lifelines : List Lifeline) (scopes : List Scope) (e : MxCell),
      (optFalsy (resolveFromPoints lifelines e).1 = true ∨
       (resolveFromPoints lifelines e).1 = some "Unknown") →
      phase3Edge lifelines scopes e = none) ∧
    (∀ (doc : List MxCell) (fuel : Nat) (f : MessageFlow),
      f ∈ extract_sequence_from_xml doc fuel → f.fromName ≠ "Unknown" ∧ f.fromName ≠ "") ∧
    (∀ (lifelines : List Lifeline) (scopes : List Scope) (e : MxCell) (s : String),
      e.edge = true → ¬(pyStrip (clean_html e.value) = "") →
      (resolveFromPoints lifelines e).1 = some s → s ≠ "Unknown" → s ≠ "" →
      ((resolveFromPoints lifelines e).2.1 = none ∨
       (resolveFromPoints lifelines e).2.1 = some "Unknown" ∨
       (resolveFromPoints lifelines e).2.1 = some "") →
      ∃ fl, phase3Edge lifelines scopes e = some fl ∧
        fl.fromName = s ∧ fl.toName = "Unknown") := by
  refine ⟨?_, ?_, ?_⟩
  · intro ls ss e h
    by_cases he : (!e.edge) = true
    · simp [phase3Edge, he]
    · by_cases hm : (pyStrip (clean_html e.value) == "") = true
      · simp [phase3Edge, he, hm]
      · have hb : (optFalsy (resolveFromPoints ls e).1 ||
            ((resolveFromPoints ls e).1 == some "Unknown")) = true := by
          rcases h with h | h
          · simp [h]
          · simp [h]
        simp [phase3Edge, he, hm, hb]
  · intro doc fuel f hf
    simp only [extract_sequence_from_xml] at hf
    rw [mem_sortByKey] at hf
    obtain ⟨e, _, he⟩ := List.mem_filterMap.mp hf
    exact phase3Edge_fromName _ _ e f he
  · intro ls ss e s he hm hr hs1 hs2 ht
    have hedge : (!e.edge) = false := by simp [he]
    have hmb : (pyStrip (clean_html e.value) == "") = false := by simpa using hm
    have hg : (optFalsy (resolveFromPoints ls e).1 ||
        ((resolveFromPoints ls e).1 == some "Unknown")) = false := by
      rw [hr]
      simp [optFalsy, hs1, hs2]
    refine ⟨{ msg := (parseCallParam (pyStrip (clean_html e.value))).1,
              fromName := ((resolveFromPoints ls e).1).getD "",
              toName := if optFalsy (resolveFromPoints ls e).2.1 then "Unknown"
                        else ((resolveFromPoints ls e).2.1).getD "Unknown",
              data := (parseCallParam (pyStrip (clean_html e.value))).2,
              y := (resolveFromPoints ls e).2.2,
              opt_suffix := (matchScope ss (resolveFromPoints ls e).2.2).1,
              guard_cond := (matchScope ss (resolveFromPoints ls e).2.2).2 }, ?_, ?_, ?_⟩
    · simp only [phase3Edge, hedge, Bool.false_eq_true, if_false, hmb, hg]
    · simp only [hr, Option.getD_some]
    · rcases ht with h | h | h <;> simp [h, optFalsy]

/-- Witness for claim C4 at a concrete edge whose receiver endpoint lies
beyond the 150-unit threshold. -/
theorem claim4_witness :
    ∃ fl, phase3Edge [⟨"A", 0⟩] []
        { id := none, tag := "mxCell", value := "m", style := "", vertex := false,
          edge := true, parent := none, source := none, target := none,
          geom := some ⟨none, none, none, none, some ⟨some 0, some 5⟩,
            some ⟨some 1000, some 5⟩⟩ } = some fl ∧
      fl.fromName = "A" ∧ fl.toName = "Unknown" :=
  claim4_thm.2.2 [⟨"A", 0⟩] []
    { id := none, tag := "mxCell", value := "m", style := "", vertex := false,
      edge := true, parent := none, source := none, target := none,
      geom := some ⟨none, none, none, none, some ⟨some 0, some 5⟩,
        some ⟨some 1000, some 5⟩⟩ } "A" rfl (by decide) (by decide) (by decide) (by decide)
    (Or.inr (Or.inl (by decide)))

-- ===================== claim C5: endpoint resolution =====================

/-- Distance of a lifeline centre from a target x. -/
def lfDist (lf : Lifeline) (x : ℚ) : ℚ := qabs (qsub lf.center_x x)

theorem closestRun_cons_none (x : ℚ) (lf : Lifeline) (rest : List Lifeline) (n0 : String) :
    closestRun x (lf :: rest) (n0, none) =
      closestRun x rest (lf.name, some (qabs (qsub lf.center_x x))) := rfl

theorem closestRun_cons_some (x : ℚ) (lf : Lifeline) (rest : List Lifeline)
    (n0 : String) (m0 : ℚ) :
    closestRun x (lf :: rest) (n0, some m0) =
      if decide (qabs (qsub lf.center_x x) < m0) = true then
        closestRun x rest (lf.name, some (qabs (qsub lf.center_x x)))
      else closestRun x rest (n0, some m0) := rfl

/-- Characterisation of the `find_closest_lifeline` scanning loop. -/
theorem closestRun_char (x : ℚ) :
    ∀ (ls : List Lifeline) (n0 : String) (m0 : Option ℚ),
      (closestRun x ls (n0, m0) = (n0, m0) ∧
        (∀ lf ∈ ls, ∃ m, m0 = some m ∧ m ≤ lfDist lf x)) ∨
      (∃ lf ∈ ls, closestRun x ls (n0, m0) = (lf.name, some (lfDist lf x)) ∧
        (∀ lf2 ∈ ls, lfDist lf x ≤ lfDist lf2 x) ∧
        (∀ m, m0 = some m → lfDist lf x ≤ m)) := by
  intro ls
  induction ls with
  | nil => intro n0 m0; exact Or.inl ⟨rfl, by simp⟩
  | cons lf rest ih =>
    intro n0 m0
    cases m0 with
    | none =>
      have hrun : closestRun x (lf :: rest) (n0, none) =
          closestRun x rest (lf.name, some (lfDist lf x)) := by
        rw [closestRun_cons_none]
        rfl
      rcases ih lf.name (some (lfDist lf x)) with ⟨he, hall⟩ | ⟨lf1, hm1, he1, hmin1, hle1⟩
      · refine Or.inr ⟨lf, List.mem_cons_self lf rest, by rw [hrun, he], ?_, ?_⟩
        · intro lf2 h2
          rcases List.mem_cons.mp h2 with h2 | h2
          · rw [h2]
          · obtain ⟨m, hm, hle⟩ := hall lf2 h2
            cases hm
            exact hle
        · intro m hm; exact Option.noConfusion hm
      · refine Or.inr ⟨lf1, List.mem_cons_of_mem lf hm1, by rw [hrun, he1], ?_, ?_⟩
        · intro lf2 h2
          rcases List.mem_cons.mp h2 with h2 | h2
          · rw [h2]; exact hle1 (lfDist lf x) rfl
          · exact hmin1 lf2 h2
        · intro m hm; exact Option.noConfusion hm
    | some m0 =>
      by_cases hlt : lfDist lf x < m0
      · have hlt2 : qabs (qsub lf.center_x x) < m0 := hlt
        have hrun : closestRun x (lf :: rest) (n0, some m0) =
            closestRun x rest (lf.name, some (lfDist lf x)) := by
          rw [closestRun_cons_some]
          simp only [decide_eq_true_eq]
          rw [if_pos hlt2]
          rfl
        rcases ih lf.name (some (lfDist lf x)) with ⟨he, hall⟩ | ⟨lf1, hm1, he1, hmin1, hle1⟩
        · refine Or.inr ⟨lf, List.mem_cons_self lf rest, by rw [hrun, he], ?_, ?_⟩
          · intro lf2 h2
            rcases List.mem_cons.mp h2 with h2 | h2
            · rw [h2]
            · obtain ⟨m, hm, hle⟩ := hall lf2 h2
              cases hm
              exact hle
          · intro m hm; cases hm; exact le_of_lt hlt
        · refine Or.inr ⟨lf1, List.mem_cons_of_mem lf hm1, by rw [hrun, he1], ?_, ?_⟩
          · intro lf2 h2
            rcases List.mem_cons.mp h2 with h2 | h2
            · rw [h2]; exact hle1 (lfDist lf x) rfl
            · exact hmin1 lf2 h2
          · intro m hm; cases hm
            exact le_of_lt (lt_of_le_of_lt (hle1 (lfDist lf x) rfl) hlt)
      · have hlt2 : ¬qabs (qsub lf.center_x x) < m0 := hlt
        have hrun : closestRun x (lf :: rest) (n0, some m0) =
            closestRun x rest (n0, some m0) := by
          rw [closestRun_cons_some]
          simp only [decide_eq_true_eq]
          rw [if_neg hlt2]
        rcases ih n0 (some m0) with ⟨he, hall⟩ | ⟨lf1, hm1, he1, hmin1, hle1⟩
        · refine Or.inl ⟨by rw [hrun, he], ?_⟩
          intro lf2 h2
          rcases List.mem_cons.mp h2 with h2 | h2
          · exact ⟨m0, rfl, by rw [h2]; exact le_of_not_lt hlt⟩
          · exact hall lf2 h2
        · refine Or.inr ⟨lf1, List.mem_cons_of_mem lf hm1, by rw [hrun, he1], ?_, hle1⟩
          intro lf2 h2
          rcases List.mem_cons.mp h2 with h2 | h2
          · rw [h2]
            exact le_trans (hle1 m0 rfl) (le_of_not_lt hlt)
          · exact hmin1 lf2 h2

theorem idx_edge_of_endpoints (lmap : List (Option String × String)) (e : MxCell)
    (f : IdxEdge) (h : idx_edge_of lmap e = some f) :
    f.sender = (odictGet lmap e.source).getD "Unknown" ∧
    f.receiver = (odictGet lmap e.target).getD "Unknown" := by
  simp only [idx_edge_of] at h
  split at h
  · split at h
    · cases h
      exact ⟨rfl, rfl⟩
    · exact Option.noConfusion h
  · exact Option.noConfusion h

/-- Claim C5 amended.  (i) The nearest-lifeline fallback of
`extract_sequence_from_xml` never returns a name beyond the 150-unit
threshold and always returns a closest lifeline; (ii) that extractor
resolves endpoints from coordinates only — the edge's explicit
source/target identifiers are ignored entirely; (iii)
`extract_detailed_sequence` of src/index.py conversely resolves
endpoints purely by identifier lookup (unregistered ids degrade to
`"Unknown"`), with no spatial fallback. -/
theorem claim5_amended :
    (∀ (ls : List Lifeline) (x : ℚ), find_closest_lifeline ls x ≠ "Unknown" →
      ∃ lf ∈ ls, find_closest_lifeline ls x = lf.name ∧
        |lf.center_x - x| ≤ 150 ∧
        (∀ lf2 ∈ ls, |lf.center_x - x| ≤ |lf2.center_x - x|)) ∧
    (∀ (ls : List Lifeline) (ss : List Scope) (e : MxCell) (s t : Option String),
      phase3Edge ls ss { e with source := s, target := t } = phase3Edge ls ss e) ∧
    (∀ (doc : List MxCell) (f : IdxEdge), f ∈ extract_detailed_sequence doc →
      ∃ e ∈ doc, e.tag = "mxCell" ∧ e.edge = true ∧
        f.sender = (odictGet (idx_lifeline_map doc) e.source).getD "Unknown" ∧
        f.receiver = (odictGet (idx_lifeline_map doc) e.target).getD "Unknown") := by
  refine ⟨?_, ?_, ?_⟩
  · intro ls x hne
    cases ls with
    | nil => exact absurd rfl hne
    | cons lf0 rest =>
      rcases closestRun_char x (lf0 :: rest) "Unknown" none with ⟨_, hall⟩ |
        ⟨lf, hm, he, hmin, _⟩
      · obtain ⟨m, hm, _⟩ := hall lf0 (List.mem_cons_self lf0 rest)
        exact Option.noConfusion hm
      · have hdist : ¬(150 < lfDist lf x) := by
          intro hgt
          apply hne
          rw [find_closest_lifeline, he]
          simp [hgt]
        have hval : find_closest_lifeline (lf0 :: rest) x = lf.name := by
          rw [find_closest_lifeline, he]
          simp [hdist]
        refine ⟨lf, hm, hval, ?_, ?_⟩
        · have := le_of_not_lt hdist
          rw [lfDist, qabs_eq, qsub_eq] at this
          exact this
        · intro lf2 h2
          have := hmin lf2 h2
          rw [lfDist, qabs_eq, qsub_eq, lfDist, qabs_eq, qsub_eq] at this
          exact this
  · intro ls ss e s t
    cases e
    rfl
  · intro doc f hf
    simp only [extract_detailed_sequence] at hf
    rw [mem_sortByKey] at hf
    obtain ⟨e, hmem, he⟩ := List.mem_filterMap.mp hf
    have hep := idx_edge_of_endpoints (idx_lifeline_map doc) e f he
    refine ⟨e, hmem, ?_, ?_, hep.1, hep.2⟩
    · by_cases ht : e.tag = "mxCell"
      · exact ht
      · exfalso
        have : (e.tag == "mxCell") = false := by simpa using ht
        simp [idx_edge_of, this] at he
    · by_cases ht : e.edge = true
      · exact ht
      · exfalso
        have : e.edge = false := by
          cases h2 : e.edge
          · rfl
          · exact absurd h2 ht
        simp [idx_edge_of, this] at he

/-- Witness for the amended claim C5 at a one-lifeline registry. -/
theorem claim5_witness :
    ∃ lf ∈ [Lifeline.mk "A" 0], find_closest_lifeline [Lifeline.mk "A" 0] 5 = lf.name ∧
      |lf.center_x - (5 : ℚ)| ≤ 150 ∧
      (∀ lf2 ∈ [Lifeline.mk "A" 0], |lf.center_x - (5 : ℚ)| ≤ |lf2.center_x - (5 : ℚ)|) :=
  claim5_amended.1 [Lifeline.mk "A" 0] 5 (by decide)

/-- First counterexample lifeline: id `a`, name `L1`, centre 0. -/
def c5l1 : MxCell :=
  { id := some "a", tag := "mxCell", value := "L1", style := "umlLifeline", vertex := true,
    edge := false, parent := none, source := none, target := none,
    geom := some ⟨some 0, some 0, some 0, some 0, none, none⟩ }

/-- Second counterexample lifeline: id `b`, name `L2`, centre 200. -/
def c5l2 : MxCell :=
  { id := some "b", tag := "mxCell", value := "L2", style := "umlLifeline", vertex := true,
    edge := false, parent := none, source := none, target := none,
    geom := some ⟨some 200, some 0, some 0, some 0, none, none⟩ }

/-- Counterexample edge: its `source` id is `a` (the lifeline named L1),
but its `sourcePoint` x is 200, right on L2's centre. -/
def c5edge : MxCell :=
  { id := none, tag := "mxCell", value := "m", style := "", vertex := false,
    edge := true, parent := none, source := some "a", target := some "b",
    geom := some ⟨none, none, none, none, some ⟨some 200, some 10⟩,
      some ⟨some 0, some 10⟩⟩ }

/-- The counterexample document for claim C5. -/
def c5doc : List MxCell := [c5l1, c5l2, c5edge]

/-- Counterexample to claim C5 as stated.  The edge's explicit `source`
identifier `a` matches the registered lifeline `L1` by id, yet the
extractor resolves the sender to `L2` — the lifeline nearest to the
`sourcePoint` coordinate — so identifier matching is never attempted. -/
theorem claim5_counterexample :
    c5edge.source = some "a" ∧ c5l1.id = some "a" ∧
    phase2 c5doc 5 = [⟨"L1", 0⟩, ⟨"L2", 200⟩] ∧
    (extract_sequence_from_xml c5doc 5).map (fun f => (f.fromName, f.toName)) =
      [("L2", "L1")] ∧
    ("L2" : String) ≠ "L1" :=
  ⟨rfl, rfl, by decide, by decide, by decide⟩

-- ===================== claim C6: scope guards =====================

theorem parentAssign_preserves (cond : String) (pid : Option String) :
    ∀ (scopes : List Scope) (i : Nat) (s : Scope),
      scopes.get? i = some s → optFalsy s.condition = false →
      (parentAssign cond pid scopes).1.get? i = some s := by
  intro scopes
  induction scopes with
  | nil => intro i s hg _; exact Option.noConfusion hg
  | cons s0 rest ih =>
    intro i s hg hf
    rw [parentAssign]
    by_cases hid : (s0.id == pid) = true
    · rw [if_pos hid]
      cases i with
      | zero =>
        rw [List.get?_cons_zero] at hg
        cases hg
        rw [List.get?_cons_zero, hf]
        simp [hf]
      | succ k =>
        rw [List.get?_cons_succ] at hg
        simpa using hg
    · rw [if_neg hid]
      cases i with
      | zero =>
        rw [List.get?_cons_zero] at hg
        cases hg
        rfl
      | succ k =>
        rw [List.get?_cons_succ] at hg
        simpa using ih k s hg hf

theorem spatialAssign_preserves (cond : String) (tx ty : ℚ) :
    ∀ (scopes : List Scope) (i : Nat) (s : Scope),
      scopes.get? i = some s → optFalsy s.condition = false →
      (spatialAssign cond tx ty scopes).get? i = some s := by
  intro scopes
  induction scopes with
  | nil => intro i s hg _; exact Option.noConfusion hg
  | cons s0 rest ih =>
    intro i s hg hf
    rw [spatialAssign]
    by_cases hin : (decide (s0.x_start ≤ tx) && decide (tx ≤ s0.x_end) &&
        decide (qsub s0.y_start 40 ≤ ty) && decide (ty ≤ s0.y_end)) = true
    · rw [if_pos hin]
      by_cases hfc : optFalsy s0.condition = true
      · rw [if_pos hfc]
        cases i with
        | zero =>
          rw [List.get?_cons_zero] at hg
          cases hg
          rw [hfc] at hf
          exact Bool.noConfusion hf
        | succ k =>
          rw [List.get?_cons_succ] at hg
          simpa using hg
      · rw [if_neg hfc]
        cases i with
        | zero =>
          rw [List.get?_cons_zero] at hg
          cases hg
          rfl
        | succ k =>
          rw [List.get?_cons_succ] at hg
          simpa using ih k s hg hf
    · rw [if_neg hin]
      cases i with
      | zero =>
        rw [List.get?_cons_zero] at hg
        cases hg
        rfl
      | succ k =>
        rw [List.get?_cons_succ] at hg
        simpa using ih k s hg hf

theorem phase12Step_preserves (doc : List MxCell) (fuel : Nat) (e : MxCell)
    (scopes : List Scope) (i : Nat) (s : Scope)
    (hg : scopes.get? i = some s) (hf : optFalsy s.condition = false) :
    (phase12Step doc fuel scopes e).get? i = some s := by
  simp only [phase12Step]
  split
  · exact hg
  · split
    · exact hg
    · split
      · exact hg
      · split
        · exact hg
        · split
          · exact parentAssign_preserves _ _ scopes i s hg hf
          · exact spatialAssign_preserves _ _ _ _ i s
              (parentAssign_preserves _ _ scopes i s hg hf) hf

/-- Claim C6 amended.  A scope guard that is already a *non-empty*
string is never replaced by any later pass over the document — neither
the parent-containment mapping nor the spatial mapping touches it; in
particular a non-empty guard embedded in the scope's own label survives
the whole run.  (A guard that is the empty string — from an empty
bracket pair — counts as unset and may still be filled in.) -/
theorem claim6_amended :
    (∀ (doc : List MxCell) (fuel : Nat) (scopes : List Scope) (i : Nat) (s : Scope),
      scopes.get? i = some s → optFalsy s.condition = false →
      (phase12 doc fuel scopes).get? i = some s) ∧
    (∀ (doc : List MxCell) (fuel : Nat) (i : Nat) (s : Scope),
      (phase1 doc fuel).get? i = some s → optFalsy s.condition = false →
      (phase12 doc fuel (phase1 doc fuel)).get? i = some s) := by
  have hmain : ∀ (doc : List MxCell) (fuel : Nat) (scopes : List Scope) (i : Nat) (s : Scope),
      scopes.get? i = some s → optFalsy s.condition = false →
      (phase12 doc fuel scopes).get? i = some s := by
    intro doc fuel
    suffices h : ∀ (l : List MxCell) (scopes : List Scope) (i : Nat) (s : Scope),
        scopes.get? i = some s → optFalsy s.condition = false →
        (l.foldl (phase12Step doc fuel) scopes).get? i = some s by
      intro scopes i s hg hf
      exact h doc scopes i s hg hf
    intro l
    induction l with
    | nil => intro scopes i s hg _; exact hg
    | cons e rest ih =>
      intro scopes i s hg hf
      rw [List.foldl_cons]
      exact ih _ i s (phase12Step_preserves doc fuel e scopes i s hg hf) hf
  exact ⟨hmain, fun doc fuel i s hg hf => hmain doc fuel (phase1 doc fuel) i s hg hf⟩

/-- The frame of the C6 counterexample: label `opt []` carries an
*empty* bracketed predicate, so its condition is assigned the empty
string. -/
def c6frame : MxCell :=
  { id := some "f1", tag := "mxCell", value := "opt []", style := "", vertex := true,
    edge := false, parent := none, source := none, target := none,
    geom := some ⟨some 0, some 0, some 100, some 100, none, none⟩ }

/-- A child label of the frame carrying the predicate `[x=1]`. -/
def c6text : MxCell :=
  { id := some "t1", tag := "mxCell", value := "[x=1]", style := "", vertex := true,
    edge := false, parent := some "f1", source := none, target := none,
    geom := some ⟨some 10, some 10, some 5, some 5, none, none⟩ }

/-- The counterexample document for claim C6. -/
def c6doc : List MxCell := [c6frame, c6text]

/-- Counterexample to claim C6 as stated.  PHASE 1 assigns the scope the
guard `""` from the bracketed predicate embedded in its own label
(`opt []`), yet the later parent-containment pass replaces it with
`x=1`: an assigned guard was overwritten. -/
theorem claim6_counterexample :
    (phase1 c6doc 5).map (fun s => s.condition) = [some ""] ∧
    (phase12 c6doc 5 (phase1 c6doc 5)).map (fun s => s.condition) = [some "x=1"] ∧
    (some "x=1" : Option String) ≠ some "" :=
  ⟨by decide, by decide, by decide⟩

/-- Witness for the amended claim C6: a frame whose embedded guard
`x=1` is non-empty survives a floating `[y=2]` label inside it. -/
theorem claim6_witness :
    (phase12
      [{ id := some "f1", tag := "mxCell", value := "opt [x=1]", style := "",
         vertex := true, edge := false, parent := none, source := none, target := none,
         geom := some ⟨some 0, some 0, some 100, some 100, none, none⟩ },
       { id := some "t1", tag := "mxCell", value := "[y=2]", style := "",
         vertex := true, edge := false, parent := some "f1", source := none, target := none,
         geom := some ⟨some 10, some 10, some 5, some 5, none, none⟩ }] 5
      (phase1
        [{ id := some "f1", tag := "mxCell", value := "opt [x=1]", style := "",
           vertex := true, edge := false, parent := none, source := none, target := none,
           geom := some ⟨some 0, some 0, some 100, some 100, none, none⟩ },
         { id := some "t1", tag := "mxCell", value := "[y=2]", style := "",
           vertex := true, edge := false, parent := some "f1", source := none, target := none,
           geom := some ⟨some 10, some 10, some 5, some 5, none, none⟩ }] 5)).get? 0 =
      some ⟨some "f1", "_opt1", 0, 100, 0, 100, 100, some "x=1"⟩ :=
  claim6_amended.2
    [{ id := some "f1", tag := "mxCell", value := "opt [x=1]", style := "",
       vertex := true, edge := false, parent := none, source := none, target := none,
       geom := some ⟨some 0, some 0, some 100, some 100, none, none⟩ },
     { id := some "t1", tag := "mxCell", value := "[y=2]", style := "",
       vertex := true, edge := false, parent := some "f1", source := none, target := none,
       geom := some ⟨some 10, some 10, some 5, some 5, none, none⟩ }] 5 0
    ⟨some "f1", "_opt1", 0, 100, 0, 100, 100, some "x=1"⟩ (by decide) (by decide)

-- ===================== claim C9: message vocabulary =====================

theorem mem_pyAddSet (x s : String) (acc : List String) :
    x ∈ pyAddSet acc s ↔ x ∈ acc ∨ x = s := by
  rw [pyAddSet]
  by_cases h : acc.contains s
  · rw [if_pos h]
    constructor
    · exact Or.inl
    · rintro (hx | rfl)
      · exact hx
      · simpa using h
  · rw [if_neg h]
    simp

theorem mem_addSet_fold (x : String) :
    ∀ (l acc : List String), x ∈ l.foldl pyAddSet acc ↔ x ∈ acc ∨ x ∈ l := by
  intro l
  induction l with
  | nil => intro acc; simp
  | cons s rest ih =>
    intro acc
    rw [List.foldl_cons, ih]
    rw [mem_pyAddSet]
    simp only [List.mem_cons]
    tauto

theorem mem_insertStr (x s : String) (l : List String) :
    x ∈ insertStr s l ↔ x = s ∨ x ∈ l := by
  induction l with
  | nil => simp [insertStr]
  | cons t rest ih =>
    rw [insertStr]
    by_cases h : strLeB t.toList s.toList = true
    · rw [if_pos h]
      simp only [List.mem_cons, ih]
      tauto
    · rw [if_neg h]
      simp only [List.mem_cons]

theorem mem_sortStrs (x : String) (l : List String) : x ∈ sortStrs l ↔ x ∈ l := by
  rw [sortStrs]
  suffices h : ∀ acc : List String,
      (x ∈ l.foldl (fun acc s => insertStr s acc) acc ↔ x ∈ acc ∨ x ∈ l) by
    simpa using h []
  induction l with
  | nil => intro acc; simp
  | cons s rest ih =>
    intro acc
    rw [List.foldl_cons, ih]
    simp only [mem_insertStr, List.mem_cons]
    tauto

theorem mem_pySortedSet (x : String) (l : List String) : x ∈ pySortedSet l ↔ x ∈ l := by
  rw [pySortedSet, mem_sortStrs]
  simpa using mem_addSet_fold x l []

theorem test_msg_step_cases (lmap : List (String × String))
    (acc : List TestMsg × List String × Nat) (e : MxCell) :
    test_msg_step lmap acc e = acc ∨
    ∃ m : TestMsg, m.index = acc.2.2 ∧
      test_msg_step lmap acc e =
        (acc.1 ++ [m], m.data.foldl pyAddSet acc.2.1, acc.2.2 + 1) := by
  simp only [test_msg_step]
  repeat' split
  all_goals first
    | exact Or.inl rfl
    | exact Or.inr ⟨_, rfl, rfl⟩

theorem test_msg_fold_indexes (lmap : List (String × String)) :
    ∀ (l : List MxCell) (acc : List TestMsg × List String × Nat),
      acc.1.map (fun m => m.index) = List.range' 1 acc.1.length →
      acc.2.2 = acc.1.length + 1 →
      (l.foldl (test_msg_step lmap) acc).1.map (fun m => m.index) =
        List.range' 1 (l.foldl (test_msg_step lmap) acc).1.length ∧
      (l.foldl (test_msg_step lmap) acc).2.2 =
        (l.foldl (test_msg_step lmap) acc).1.length + 1 := by
  intro l
  induction l with
  | nil => intro acc h1 h2; exact ⟨h1, h2⟩
  | cons e rest ih =>
    intro acc h1 h2
    rw [List.foldl_cons]
    rcases test_msg_step_cases lmap acc e with he | ⟨m, hmi, he⟩
    · rw [he]
      exact ih acc h1 h2
    · rw [he]
      refine ih _ ?_ ?_
      · simp only [List.map_append, List.length_append, List.map_cons, List.map_nil,
          List.length_cons, List.length_nil]
        rw [h1, hmi, h2]
        rw [List.range'_concat]
        simp [Nat.add_comm]
      · simp only [List.length_append, List.length_cons, List.length_nil]
        omega

/-- Claim C9 amended.  In src/test.py the message vocabulary (and the
content of its `Messages` axiom) consists of exactly the per-flow
instance identifiers `name_index` — with `index` equal to the flow's
1-based retention position — deduplicated and sorted.  In src/t1.py the
`Messages` axiom instead lists the distinct raw call names in reversed
sorted order, while the `callName_ordinal` instance identifiers appear
only among the CONSTANTS. -/
theorem claim9_amended :
    (∀ doc : List MxCell,
      ((test_extract_messages doc).1).map (fun m => m.index) =
        List.range' 1 (test_extract_messages doc).1.length) ∧
    (∀ (doc : List MxCell) (m : TestMsg), m ∈ (test_extract_messages doc).1 →
      test_inst m ∈ test_messages_vocab doc) ∧
    (∀ (doc : List MxCell) (x : String), x ∈ test_messages_vocab doc →
      ∃ m ∈ (test_extract_messages doc).1, x = test_inst m) ∧
    (∀ (doc : List MxCell) (flows : List MessageFlow) (j : Nat) (f : MessageFlow),
      flows.get? j = some f →
      (f.msg ++ "_" ++ toString (j + 1)) ∈ t1_all_constants doc flows) := by
  refine ⟨?_, ?_, ?_, ?_⟩
  · intro doc
    exact (test_msg_fold_indexes (doc.foldl test_lifeline_map_step []) doc ([], [], 1)
      (by simp) (by simp)).1
  · intro doc m hm
    rw [test_messages_vocab, mem_pySortedSet]
    exact List.mem_map.mpr ⟨m, hm, rfl⟩
  · intro doc x hx
    rw [test_messages_vocab, mem_pySortedSet] at hx
    obtain ⟨m, hm, he⟩ := List.mem_map.mp hx
    exact ⟨m, hm, he.symm⟩
  · intro doc flows j f hj
    rw [t1_all_constants]
    have hmem : (f.msg ++ "_" ++ toString (j + 1)) ∈ t1_msg_instances flows := by
      rw [t1_msg_instances]
      refine List.mem_map.mpr ⟨(1 + j, f), ?_, by rw [Nat.add_comm 1 j]⟩
      have := enumFrom_get? 1 flows j
      rw [hj] at this
      exact List.get?_mem this
    simp only [List.mem_append]
    exact Or.inr hmem

/-- Witness for the amended claim C9 at a one-flow list. -/
theorem claim9_witness : ("a_1" : String) ∈ t1_all_constants [] [cf1] :=
  claim9_amended.2.2.2 [] [cf1] 0 cf1 (by decide)

/-- First counterexample edge for claim C9 (call name `b`, higher up). -/
def c9e1 : MxCell :=
  { id := none, tag := "mxCell", value := "b", style := "", vertex := false,
    edge := true, parent := none, source := none, target := none,
    geom := some ⟨none, none, none, none, some ⟨some 0, some 10⟩,
      some ⟨some 200, some 10⟩⟩ }

/-- Second counterexample edge for claim C9 (call name `a`, lower). -/
def c9e2 : MxCell :=
  { id := none, tag := "mxCell", value := "a", style := "", vertex := false,
    edge := true, parent := none, source := none, target := none,
    geom := some ⟨none, none, none, none, some ⟨some 0, some 20⟩,
      some ⟨some 200, some 20⟩⟩ }

/-- The counterexample document for claim C9: two lifelines, two flows. -/
def c9doc : List MxCell := [c5l1, c5l2, c9e1, c9e2]

/-- Counterexample to claim C9 as stated.  The retained flows yield the
instance identifiers `b_1` and `a_2`, but the `Messages` axiom emitted
by `apply_rules_full` lists the raw call names (reverse-sorted) `b, a`;
the instance identifier `b_1` does not appear in the axiom at all. -/
theorem claim9_counterexample :
    t1_msg_instances (extract_sequence_from_xml c9doc 5) = ["b_1", "a_2"] ∧
    t1_axm2_messages c9doc = ["b", "a"] ∧
    ¬(("b_1" : String) ∈ t1_axm2_messages c9doc) :=
  ⟨by decide, by decide, by decide⟩
